import Mathlib

/-!
Verification of the point-cloud loader subsystem of `project_pointcloud`.

The development shallowly embeds the text-processing core of the repository:
  * `src/src/utils/plyLoader.ts` : the simple whole-text PLY loader
    (`loadPLYFileSimple`), and the streaming chunked PLY loader
    (`loadPLYFile`) with header scanning, idx-based tokenizing and
    progress emission;
  * `src/src/utils/txtLoader.ts` : the streaming TXT loader (`loadTXTFile`);
  * `src/unnamed/part_001` : `loadPLYFileOptimized`.

Modelling conventions:
  * Text is `List Char`; a byte chunk is modelled as its decoded character
    list (ASCII is assumed, so byte counts equal character counts; the
    `TextDecoder` multi-byte boundary handling is out of scope).
  * JS numbers are idealized: `parseFloat` results are `Option Rat`
    (`none` models `NaN`; binary floating-point rounding and the
    `Infinity` literal are not modelled), `parseInt` results are
    `Option Int`.
  * The streaming loaders' `while` loops are given explicit fuel; a result
    of `none` models non-termination (or insufficient fuel).
  * The `onProgress` callback is modelled by a boolean `cb` ("a callback
    was supplied") together with the list of `LoadProgress` snapshots the
    loader would deliver to it, in order.
-/

namespace PLY

/-- JS whitespace (the fragment relevant to this code base). -/
def jsIsSpace (c : Char) : Bool := c = ' ' || c = '\t' || c = '\n' || c = '\r'

/-- JS `String.prototype.trim`. -/
def jsTrim (l : List Char) : List Char :=
  ((l.dropWhile jsIsSpace).reverse.dropWhile jsIsSpace).reverse

/-- JS `text.split('\n')` (always returns at least one piece). -/
def splitNl : List Char → List (List Char)
  | [] => [[]]
  | c :: rest =>
    if c = '\n' then [] :: splitNl rest
    else
      match splitNl rest with
      | [] => [[c]]
      | p :: ps => (c :: p) :: ps

/-- JS `pieces.join('\n')`. -/
def joinNl : List (List Char) → List Char
  | [] => []
  | [p] => p
  | p :: ps => p ++ '\n' :: joinNl ps

/-- Worker for `splitWs` (JS `split(/\s+/)`): `acc` is the reversed
current token; `inWs` records that we are inside a whitespace run whose
token has already been emitted (so further whitespace is absorbed into
the same separator). -/
def splitWsGo : List Char → List Char → Bool → List (List Char)
  | [], acc, false => [acc.reverse]
  | [], _, true => [[]]
  | c :: rest, acc, false =>
    if jsIsSpace c then acc.reverse :: splitWsGo rest [] true
    else splitWsGo rest (c :: acc) false
  | c :: rest, _, true =>
    if jsIsSpace c then splitWsGo rest [] true
    else splitWsGo rest [c] false

/-- JS `s.split(/\s+/)`: split on maximal whitespace runs (a leading or
trailing run yields an empty piece, exactly as in JS). -/
def splitWs (l : List Char) : List (List Char) := splitWsGo l [] false

/-- Value of a digit string (the code only feeds `\d+` captures here). -/
def digitsToNat (ds : List Char) : Nat :=
  ds.foldl (fun a c => 10 * a + (c.toNat - 48)) 0

/-- Exponent factor consumed by JS `parseFloat` after the mantissa:
`e`/`E`, optional sign, then digits; ill-formed exponents contribute 0. -/
def parseExpVal (l : List Char) : Int :=
  match l with
  | c :: rest =>
    if c = 'e' ∨ c = 'E' then
      match rest with
      | '+' :: r =>
        (match r.takeWhile Char.isDigit with
         | [] => 0
         | ds => (digitsToNat ds : Int))
      | '-' :: r =>
        (match r.takeWhile Char.isDigit with
         | [] => 0
         | ds => -(digitsToNat ds : Int))
      | r =>
        (match r.takeWhile Char.isDigit with
         | [] => 0
         | ds => (digitsToNat ds : Int))
    else 0
  | [] => 0

/-- JS `parseFloat` on the text after whitespace/sign: longest decimal
prefix `digits[.digits][exponent]`; `none` models `NaN`. -/
def parseFloatBody (l : List Char) : Option Rat :=
  let ip := l.takeWhile Char.isDigit
  let r1 := l.dropWhile Char.isDigit
  match r1 with
  | '.' :: r2 =>
    let fp := r2.takeWhile Char.isDigit
    let r3 := r2.dropWhile Char.isDigit
    if ip = [] ∧ fp = [] then none
    else some ((((digitsToNat ip : Rat) + (digitsToNat fp : Rat) / (10 : Rat) ^ fp.length))
                * (10 : Rat) ^ (parseExpVal r3))
  | _ =>
    if ip = [] then none
    else some ((digitsToNat ip : Rat) * (10 : Rat) ^ (parseExpVal r1))

/-- JS `parseFloat(s)` (`none` = `NaN`). -/
def parseFloatJS (l : List Char) : Option Rat :=
  match l.dropWhile jsIsSpace with
  | '-' :: r => (parseFloatBody r).map Neg.neg
  | '+' :: r => parseFloatBody r
  | r => parseFloatBody r

/-- JS `parseInt(s, 10)` (`none` = `NaN`): longest decimal-digit prefix
after whitespace and an optional sign. -/
def parseIntJS (l : List Char) : Option Int :=
  match l.dropWhile jsIsSpace with
  | '-' :: r =>
    (match r.takeWhile Char.isDigit with
     | [] => none
     | ds => some (-(digitsToNat ds : Int)))
  | '+' :: r =>
    (match r.takeWhile Char.isDigit with
     | [] => none
     | ds => some ((digitsToNat ds : Int)))
  | r =>
    (match r.takeWhile Char.isDigit with
     | [] => none
     | ds => some ((digitsToNat ds : Int)))

/-- A decoded point. Coordinates are guarded by `isNaN` checks in the code
and hence are plain rationals; color channels may be `NaN` (`none`) in the
format-A loaders, which push `parseInt` results unchecked. -/
structure Point where
  x : Rat
  y : Rat
  z : Rat
  r : Option Int
  g : Option Int
  b : Option Int
deriving DecidableEq, Repr

/-- A progress snapshot delivered to `onProgress`. -/
structure LoadProgress where
  loaded : Nat
  total : Nat
  percentage : Rat
deriving DecidableEq, Repr

/-- Fatal load failures (thrown `Error`s). -/
inductive LoadErr where
  | malformedHeader   -- "PLY文件格式错误：未找到end_header"
  | noVertexCount     -- "PLY文件格式错误：未找到vertex数量" (optimized loader)
deriving DecidableEq, Repr

/-- First index of `c` in `l` (JS `indexOf` restricted to a found/not-found
option; the code compares against `-1`). -/
def idxOf (c : Char) : List Char → Option Nat
  | [] => none
  | a :: rest => if a = c then some 0 else (idxOf c rest).map (· + 1)

/-- JS `line.indexOf(c, start)`. -/
def indexOfFrom (l : List Char) (c : Char) (start : Nat) : Option Nat :=
  (idxOf c (l.drop start)).map (· + start)

/-- JS `line.substring(a, b)` for `a ≤ b` (the only way the code calls it). -/
def substr (l : List Char) (a b : Nat) : List Char := (l.take b).drop a

/-- The `line.startsWith('element vertex')` test string. -/
def evPref : List Char := "element vertex".toList

/-- The header terminator line. -/
def endHeaderL : List Char := "end_header".toList

/-- The literal part of the regex `/element vertex (\d+)/`. -/
def evPat : List Char := "element vertex ".toList

/-- JS `line.match(/element vertex (\d+)/)`, returning the value of the
first capture: leftmost occurrence of the literal followed by at least one
digit, capturing the maximal digit run. -/
def elementVertexNum : List Char → Option Nat
  | [] => none
  | c :: rest =>
    if evPat.isPrefixOf (c :: rest) then
      match ((c :: rest).drop evPat.length).takeWhile Char.isDigit with
      | [] => elementVertexNum rest
      | ds => some (digitsToNat ds)
    else elementVertexNum rest

/-- One header line's effect on `vertexCount` (`t` is the trimmed line):
`if (line.startsWith('element vertex')) { const match = ...; if (match) vertexCount = parseInt(match[1], 10); }`. -/
def hdrLineCount (vc : Nat) (t : List Char) : Nat :=
  if evPref.isPrefixOf t then
    match elementVertexNum t with
    | some n => n
    | none => vc
  else vc

/-- The declared count contributed by a (raw) header line, if any. -/
def declOf (l : List Char) : Option Nat :=
  if evPref.isPrefixOf (jsTrim l) then elementVertexNum (jsTrim l) else none

/-- The header scan shared by all format-A loaders: walk the split lines,
updating `vertexCount` on declaration lines, and stop at the first line
trimming to `end_header`, returning the lines after it. `none` in the
second component means the terminator was not found. -/
def hdrScan : Nat → List (List Char) → Nat × Option (List (List Char))
  | vc, [] => (vc, none)
  | vc, l :: ls =>
    let t := jsTrim l
    let vc' := hdrLineCount vc t
    if t = endHeaderL then (vc', some ls) else hdrScan vc' ls

/-- Format-A body line, `split(/\s+/)` variant (`loadPLYFile`/
`loadPLYFileSimple` in `plyLoader.ts`): trim, skip blank, require at least
6 parts, require numeric x/y/z; colors are pushed unchecked. -/
def parseLineASimple (l : List Char) : Option Point :=
  let t := jsTrim l
  if t = [] then none
  else
    let parts := splitWs t
    if 6 ≤ parts.length then
      match parseFloatJS (parts.getD 0 []), parseFloatJS (parts.getD 1 []),
            parseFloatJS (parts.getD 2 []) with
      | some x, some y, some z =>
        some ⟨x, y, z, parseIntJS (parts.getD 3 []), parseIntJS (parts.getD 4 []),
              parseIntJS (parts.getD 5 [])⟩
      | _, _, _ => none
    else none

/-- Format-A body line, `indexOf`/`substring` variant (streaming
`loadPLYFile` body and `loadPLYFileOptimized`): skip short lines, locate
four delimiters (the fifth defaults to end of line), require numeric
x/y/z; colors are pushed unchecked. -/
def parseLineA6 (l : List Char) : Option Point :=
  if l.length < 10 then none
  else
    match indexOfFrom l ' ' 0 with
    | none => none
    | some i1 =>
      match indexOfFrom l ' ' (i1 + 1) with
      | none => none
      | some i2 =>
        match indexOfFrom l ' ' (i2 + 1) with
        | none => none
        | some i3 =>
          match indexOfFrom l ' ' (i3 + 1) with
          | none => none
          | some i4 =>
            let i5 := (indexOfFrom l ' ' (i4 + 1)).getD l.length
            match parseFloatJS (substr l 0 i1), parseFloatJS (substr l (i1 + 1) i2),
                  parseFloatJS (substr l (i2 + 1) i3) with
            | some x, some y, some z =>
              some ⟨x, y, z, parseIntJS (substr l (i3 + 1) i4),
                    parseIntJS (substr l (i4 + 1) i5), parseIntJS (l.drop (i5 + 1))⟩
            | _, _, _ => none

/-- Format-B body line (`loadTXTFile` loop body): skip short lines and
`#` comments; 3-field lines (2 or 3 delimiters) default the color to
white; 6-field lines fall back to 255 per unparsable color channel;
non-numeric coordinates skip the line. -/
def parseLineB (l : List Char) : Option Point :=
  if l.length < 10 then none
  else if (match jsTrim l with | '#' :: _ => true | _ => false) then none
  else
    match indexOfFrom l ' ' 0 with
    | none => none
    | some i1 =>
      match indexOfFrom l ' ' (i1 + 1) with
      | none => none
      | some i2 =>
        match indexOfFrom l ' ' (i2 + 1) with
        | none =>
          match parseFloatJS (substr l 0 i1), parseFloatJS (substr l (i1 + 1) i2),
                parseFloatJS (l.drop (i2 + 1)) with
          | some x, some y, some z => some ⟨x, y, z, some 255, some 255, some 255⟩
          | _, _, _ => none
        | some i3 =>
          match indexOfFrom l ' ' (i3 + 1) with
          | none =>
            match parseFloatJS (substr l 0 i1), parseFloatJS (substr l (i1 + 1) i2),
                  parseFloatJS (substr l (i2 + 1) i3) with
            | some x, some y, some z => some ⟨x, y, z, some 255, some 255, some 255⟩
            | _, _, _ => none
          | some i4 =>
            let i5 := (indexOfFrom l ' ' (i4 + 1)).getD l.length
            match parseFloatJS (substr l 0 i1), parseFloatJS (substr l (i1 + 1) i2),
                  parseFloatJS (substr l (i2 + 1) i3) with
            | some x, some y, some z =>
              some ⟨x, y, z,
                    some ((parseIntJS (substr l (i3 + 1) i4)).getD 255),
                    some ((parseIntJS (substr l (i4 + 1) i5)).getD 255),
                    some ((parseIntJS (l.drop (i5 + 1))).getD 255)⟩
            | _, _, _ => none

/-- TXT tail fragment parse (after the stream loop): requires four
delimiters (no 3-field fallback), checks the `#` comment marker with
`startsWith` on the already-trimmed fragment. -/
def txtTailParse (l : List Char) : Option Point :=
  if l = [] then none
  else if l.length < 10 then none
  else if (match l with | '#' :: _ => true | _ => false) then none
  else
    match indexOfFrom l ' ' 0 with
    | none => none
    | some i1 =>
      match indexOfFrom l ' ' (i1 + 1) with
      | none => none
      | some i2 =>
        match indexOfFrom l ' ' (i2 + 1) with
        | none => none
        | some i3 =>
          match indexOfFrom l ' ' (i3 + 1) with
          | none => none
          | some i4 =>
            let i5 := (indexOfFrom l ' ' (i4 + 1)).getD l.length
            match parseFloatJS (substr l 0 i1), parseFloatJS (substr l (i1 + 1) i2),
                  parseFloatJS (substr l (i2 + 1) i3) with
            | some x, some y, some z =>
              some ⟨x, y, z,
                    some ((parseIntJS (substr l (i3 + 1) i4)).getD 255),
                    some ((parseIntJS (substr l (i4 + 1) i5)).getD 255),
                    some ((parseIntJS (l.drop (i5 + 1))).getD 255)⟩
            | _, _, _ => none

/-- Body loop of the simple whole-text loaders: process lines in order
while fewer than `vc` points have been collected. -/
def bodyA (vc : Nat) : List (List Char) → List Point → List Point
  | [], pts => pts
  | l :: ls, pts =>
    if vc ≤ pts.length then pts
    else
      match parseLineASimple l with
      | some p => bodyA vc ls (pts ++ [p])
      | none => bodyA vc ls pts

/-- `loadPLYFile`/`loadPLYFileSimple` of `plyLoader.ts` on the whole text:
scan the header (failing with `MalformedHeader` if `end_header` is never
found), then collect up to the declared count of body points. -/
def loadPLYFileSimple (t : List Char) : Option (List Point) :=
  match hdrScan 0 (splitNl t) with
  | (_, none) => none
  | (vc, some rest) => some (bodyA vc rest [])

/-- Streaming/optimized body line processing: process the given complete
lines in order while fewer than `vc` points are collected. -/
def processLines (vc : Nat) : List (List Char) → List Point → List Point
  | [], pts => pts
  | l :: ls, pts =>
    if vc ≤ pts.length then pts
    else
      match parseLineA6 l with
      | some p => processLines vc ls (pts ++ [p])
      | none => processLines vc ls pts

/-- `loadPLYFileOptimized` of `src/unnamed/part_001`: whole-text header
scan (`dataStartIndex` stays 0 when no terminator is found), a thrown
error when `vertexCount` is falsy, then the idx-based body loop. -/
def loadPLYFileOptimized (t : List Char) : Except LoadErr (List Point) :=
  if (hdrScan 0 (splitNl t)).1 = 0 then .error .noVertexCount
  else
    .ok (processLines (hdrScan 0 (splitNl t)).1
      (match (hdrScan 0 (splitNl t)).2 with
       | some r => r
       | none => splitNl t) [])

/-- Batch size of the streaming loaders. -/
def BATCH_SIZE : Nat := 50000

/-- The `lines.pop()` carry of the streaming loops: the trailing
(possibly incomplete) piece of the split buffer; an empty pop leaves the
buffer empty (`if (lastLine) buffer = lastLine`). -/
def carryBuf (buffer : List Char) : List Char := (splitNl buffer).getLast?.getD []

/-- The complete lines processed in one streaming iteration (everything
but the popped trailing piece). -/
def fullLines (buffer : List Char) : List (List Char) := (splitNl buffer).dropLast

/-- Header-phase progress emission: bytes mapped onto 0-50 % (capped),
emitted when a callback was supplied and the content length is positive. -/
def plyHdrEm (cb : Bool) (cl loaded : Nat) : List LoadProgress :=
  if cb ∧ 0 < cl then [⟨loaded, cl, min (((loaded : Rat) / (cl : Rat)) * 50) 50⟩] else []

/-- Body-phase progress emission at batch boundaries
(`pointIndex % BATCH_SIZE === 0`): decoded records mapped onto 50-100 %. -/
def plyBodyEm (cb : Bool) (cl vc loaded : Nat) (pts : List Point) : List LoadProgress :=
  if pts.length % BATCH_SIZE = 0 ∧ cb ∧ 0 < cl then
    [⟨loaded, cl, 50 + ((pts.length : Rat) / (vc : Rat)) * 50⟩] else []

/-- TXT batch-boundary progress emission: bytes mapped onto 0-100 %
(uncapped). -/
def txtEm (cb : Bool) (cl loaded : Nat) (pts : List Point) : List LoadProgress :=
  if pts.length % BATCH_SIZE = 0 ∧ cb ∧ 0 < cl then
    [⟨loaded, cl, ((loaded : Rat) / (cl : Rat)) * 100⟩] else []

/-- The unconditional final emission (`percentage: 100`,
`total: contentLength || loadedBytes`), when a callback was supplied. -/
def finEm (cb : Bool) (cl loaded : Nat) : List LoadProgress :=
  if cb then [⟨loaded, if cl = 0 then loaded else cl, 100⟩] else []

/-- Header-phase loop of the streaming `loadPLYFile`: per chunk, append to
the buffer, re-split and re-scan it from the start; on the terminator keep
`lines.slice(i+1).join('\n')` as the body buffer. A progress snapshot
(bytes mapped onto 0–50 %, capped) is emitted after each chunk when a
callback was supplied and the content length is positive. Returns
(`some (vertexCount, buffer, loadedBytes, remaining chunks)` or `none`
for a stream that ended first, emissions). -/
def plyHeaderLoop (cb : Bool) (cl : Nat) :
    List (List Char) → List Char → Nat → Nat →
    Option (Nat × List Char × Nat × List (List Char)) × List LoadProgress
  | [], _, _, _ => (none, [])
  | c :: cs, buffer, vc, loaded =>
    match hdrScan vc (splitNl (buffer ++ c)) with
    | (vc', some rest) =>
      (some (vc', joinNl rest, loaded + c.length, cs), plyHdrEm cb cl (loaded + c.length))
    | (vc', none) =>
      match plyHeaderLoop cb cl cs (buffer ++ c) vc' (loaded + c.length) with
      | (r, ems) => (r, plyHdrEm cb cl (loaded + c.length) ++ ems)

/-- Body-phase loop of the streaming `loadPLYFile`
(`while (pointIndex < vertexCount) { ... }`), with explicit fuel; `none`
models non-termination. Per iteration: read (`done` when no chunks
remain, breaking only if the buffer is also empty), split the buffer,
carry the popped trailing fragment, process the complete lines, and at
batch boundaries (`pointIndex % BATCH_SIZE === 0`) emit body progress
(50–100 %) when a callback was supplied and the content length is
positive. Returns (points, final buffer, loadedBytes, emissions). -/
def plyBodyLoop (cb : Bool) (cl vc : Nat) :
    Nat → List (List Char) → List Char → Nat → List Point →
    Option (List Point × List Char × Nat × List LoadProgress)
  | fuel, chunks, buffer, loaded, pts =>
    if vc ≤ pts.length then some (pts, buffer, loaded, [])
    else
      match fuel, chunks with
      | 0, _ => none
      | fuel' + 1, [] =>
        if buffer = [] then some (pts, buffer, loaded, [])
        else
          match plyBodyLoop cb cl vc fuel' [] (carryBuf buffer) loaded
              (processLines vc (fullLines buffer) pts) with
          | none => none
          | some (p, b, ld, e) =>
            some (p, b, ld,
              plyBodyEm cb cl vc loaded (processLines vc (fullLines buffer) pts) ++ e)
      | fuel' + 1, c :: cs =>
        match plyBodyLoop cb cl vc fuel' cs (carryBuf (buffer ++ c)) (loaded + c.length)
            (processLines vc (fullLines (buffer ++ c)) pts) with
        | none => none
        | some (p, b, ld, e) =>
          some (p, b, ld,
            plyBodyEm cb cl vc (loaded + c.length)
              (processLines vc (fullLines (buffer ++ c)) pts) ++ e)

/-- Tail-fragment handling after the streaming PLY body loop: the trimmed
residual buffer is parsed with the same idx-based tokenizer (guarded by
`pointIndex < vertexCount`; the non-empty/short-line guards coincide with
`parseLineA6`'s). -/
def plyTail (vc : Nat) (buffer : List Char) (pts : List Point) : List Point :=
  if pts.length < vc then
    match parseLineA6 (jsTrim buffer) with
    | some p => pts ++ [p]
    | none => pts
  else pts

/-- The streaming `loadPLYFile` of `plyLoader.ts` on a list of chunks.
`cb` records whether an `onProgress` callback was supplied, `cl` is the
`content-length` header value (0 when absent). Returns `none` when the
body loop runs out of fuel (models non-termination), otherwise the
result (or thrown error) paired with the emitted progress snapshots.
When fewer points than declared were decoded the sliced array is returned
with no final emission; otherwise the final unconditional 100 % snapshot
is emitted. -/
def loadPLYFile (cb : Bool) (cl fuel : Nat) (chunks : List (List Char)) :
    Option (Except LoadErr (List Point) × List LoadProgress) :=
  match plyHeaderLoop cb cl chunks [] 0 0 with
  | (none, ems) => some (.error .malformedHeader, ems)
  | (some (vc, buf, loaded, rest), ems) =>
    match plyBodyLoop cb cl vc fuel rest buf loaded [] with
    | none => none
    | some (pts, buf', loaded', bems) =>
      let pts2 := plyTail vc buf' pts
      if pts2.length < vc then some (.ok pts2, ems ++ bems)
      else
        some (.ok pts2, ems ++ bems ++ finEm cb cl loaded')

/-- TXT line processing over a batch of complete lines (no count bound). -/
def processLinesB : List (List Char) → List Point → List Point
  | [], pts => pts
  | l :: ls, pts =>
    match parseLineB l with
    | some p => processLinesB ls (pts ++ [p])
    | none => processLinesB ls pts

/-- Stream loop of `loadTXTFile` (`while (true) { ... }`), with explicit
fuel; `none` models non-termination. Breaks only when the stream is done
and the buffer is empty; batch-boundary progress
(`points.length % BATCH_SIZE === 0`) maps bytes onto 0–100 % (uncapped)
when a callback was supplied and the content length is positive. -/
def txtBodyLoop (cb : Bool) (cl : Nat) :
    Nat → List (List Char) → List Char → Nat → List Point →
    Option (List Point × List Char × Nat × List LoadProgress)
  | 0, _, _, _, _ => none
  | fuel + 1, [], buffer, loaded, pts =>
    if buffer = [] then some (pts, buffer, loaded, [])
    else
      match txtBodyLoop cb cl fuel [] (carryBuf buffer) loaded
          (processLinesB (fullLines buffer) pts) with
      | none => none
      | some (p, b, ld, e) =>
        some (p, b, ld, txtEm cb cl loaded (processLinesB (fullLines buffer) pts) ++ e)
  | fuel + 1, c :: cs, buffer, loaded, pts =>
    match txtBodyLoop cb cl fuel cs (carryBuf (buffer ++ c)) (loaded + c.length)
        (processLinesB (fullLines (buffer ++ c)) pts) with
    | none => none
    | some (p, b, ld, e) =>
      some (p, b, ld,
        txtEm cb cl (loaded + c.length) (processLinesB (fullLines (buffer ++ c)) pts) ++ e)

/-- `loadTXTFile` of `txtLoader.ts` on a list of chunks: the stream loop,
the tail-fragment parse of the trimmed residual buffer, and the
unconditional final 100 % emission when a callback was supplied. -/
def loadTXTFile (cb : Bool) (cl fuel : Nat) (chunks : List (List Char)) :
    Option (Except LoadErr (List Point) × List LoadProgress) :=
  match txtBodyLoop cb cl fuel chunks [] 0 [] with
  | none => none
  | some (pts, buf, loaded, ems) =>
    let pts2 :=
      match txtTailParse (jsTrim buf) with
      | some p => pts ++ [p]
      | none => pts
    some (.ok pts2, ems ++ finEm cb cl loaded)

/-! ### Basic lemmas about the text primitives -/

theorem splitNl_ne_nil (l : List Char) : splitNl l ≠ [] := by
  cases l with
  | nil => simp [splitNl]
  | cons c rest =>
    simp only [splitNl]
    split
    · simp
    · rcases h : splitNl rest with _ | ⟨p, ps⟩ <;> simp

theorem splitNl_of_no_newline (l : List Char) (h : '\n' ∉ l) : splitNl l = [l] := by
  induction l with
  | nil => rfl
  | cons c rest ih =>
    simp only [List.mem_cons, not_or] at h
    simp only [splitNl]
    rw [if_neg (by simpa using (Ne.symm h.1)), ih h.2]

/-! ### The TXT loader never terminates on a stream whose text lacks a
trailing newline (claim C3): once the stream is done, the residual
fragment is split into a single line which is immediately popped back
into the buffer, so the loop never reaches its exit condition. -/

theorem carryBuf_no_newline (buf : List Char) (h : '\n' ∉ buf) : carryBuf buf = buf := by
  unfold carryBuf
  rw [splitNl_of_no_newline buf h]
  rfl

theorem fullLines_no_newline (buf : List Char) (h : '\n' ∉ buf) : fullLines buf = [] := by
  unfold fullLines
  rw [splitNl_of_no_newline buf h]
  rfl

theorem txtBodyLoop_stuck (cb : Bool) (cl : Nat) (buf : List Char)
    (hne : buf ≠ []) (hnl : '\n' ∉ buf) :
    ∀ fuel loaded pts, txtBodyLoop cb cl fuel [] buf loaded pts = none := by
  intro fuel
  induction fuel with
  | zero => intro loaded pts; rfl
  | succ n ih =>
    intro loaded pts
    simp only [txtBodyLoop]
    rw [if_neg hne, carryBuf_no_newline buf hnl, fullLines_no_newline buf hnl]
    simp only [processLinesB]
    rw [ih]

/-- C3: the claim's last conjunct fails as a code bug: on the concrete
stream consisting of the single chunk `"1 2 3 255 0 0"` (a well-formed
6-field line with no trailing newline), `loadTXTFile` never terminates,
for every amount of fuel — the final unterminated line is never parsed
(the post-loop tail parser is unreachable), contradicting the claim and
the intent evidenced by that dead tail-handling code. -/
theorem C3_final_line_never_parsed (cb : Bool) (cl fuel : Nat) :
    loadTXTFile cb cl fuel ["1 2 3 255 0 0".toList] = none := by
  have hne : "1 2 3 255 0 0".toList ≠ [] := by decide
  have hnl : '\n' ∉ "1 2 3 255 0 0".toList := by decide
  unfold loadTXTFile
  cases fuel with
  | zero => rfl
  | succ n =>
    simp only [txtBodyLoop, List.nil_append]
    rw [carryBuf_no_newline _ hnl, fullLines_no_newline _ hnl]
    simp only [processLinesB]
    rw [txtBodyLoop_stuck cb cl _ hne hnl]

/-! ### Header-scanner lemmas -/

theorem hdrLineCount_declOf (vc : Nat) (l : List Char) :
    hdrLineCount vc (jsTrim l) = (declOf l).getD vc := by
  unfold hdrLineCount declOf
  split
  · cases elementVertexNum (jsTrim l) <;> simp
  · simp

theorem hdrScan_snd_none (vc : Nat) (lines : List (List Char))
    (h : ∀ l ∈ lines, jsTrim l ≠ endHeaderL) : (hdrScan vc lines).2 = none := by
  induction lines generalizing vc with
  | nil => rfl
  | cons l ls ih =>
    simp only [hdrScan]
    rw [if_neg (h l (by simp))]
    exact ih _ (fun x hx => h x (by simp [hx]))

theorem hdrScan_snd_isSome (vc : Nat) (lines : List (List Char))
    (h : ∃ l ∈ lines, jsTrim l = endHeaderL) : (hdrScan vc lines).2.isSome := by
  induction lines generalizing vc with
  | nil => simp at h
  | cons l ls ih =>
    simp only [hdrScan]
    by_cases hl : jsTrim l = endHeaderL
    · rw [if_pos hl]; rfl
    · rw [if_neg hl]
      rcases h with ⟨m, hm, hmt⟩
      rcases List.mem_cons.1 hm with rfl | hm'
      · exact absurd hmt hl
      · exact ih _ ⟨m, hm', hmt⟩

theorem hdrScan_no_decl_term (vc : Nat) (pre rest : List (List Char)) (term : List Char)
    (hnd : ∀ l ∈ pre, declOf l = none)
    (hpre : ∀ l ∈ pre, jsTrim l ≠ endHeaderL)
    (hterm : jsTrim term = endHeaderL) :
    hdrScan vc (pre ++ term :: rest) = (hdrLineCount vc (jsTrim term), some rest) := by
  induction pre generalizing vc with
  | nil => simp only [List.nil_append, hdrScan, if_pos hterm]
  | cons l ls ih =>
    simp only [List.cons_append, hdrScan]
    rw [if_neg (hpre l (by simp))]
    rw [hdrLineCount_declOf, hnd l (by simp), Option.getD_none]
    exact ih _ (fun x hx => hnd x (by simp [hx])) (fun x hx => hpre x (by simp [hx]))

theorem hdrScan_fst_no_decl (vc : Nat) (lines : List (List Char))
    (hnd : ∀ l ∈ lines, declOf l = none) : (hdrScan vc lines).1 = vc := by
  induction lines generalizing vc with
  | nil => rfl
  | cons l ls ih =>
    simp only [hdrScan]
    rw [hdrLineCount_declOf, hnd l (by simp), Option.getD_none]
    split
    · rfl
    · exact ih _ (fun x hx => hnd x (by simp [hx]))

theorem getLast?_cons_ne_nil {α : Type} (a : α) (l : List α) (h : l ≠ []) :
    (a :: l).getLast? = l.getLast? := by
  cases l with
  | nil => exact absurd rfl h
  | cons b m => simp [List.getLast?_cons_cons]

/-- C5: when the header contains several vertex-count declaration lines
before the terminator, the scan used by every format-A loader adopts the
count of the last declaration (each matching line overwrites
`vertexCount`), and resumes with the lines after the terminator. -/
theorem C5_last_declaration_wins (vc0 n : Nat) (pre rest : List (List Char)) (term : List Char)
    (hpre : ∀ l ∈ pre, jsTrim l ≠ endHeaderL)
    (hterm : jsTrim term = endHeaderL)
    (hlast : (pre.filterMap declOf).getLast? = some n) :
    hdrScan vc0 (pre ++ term :: rest) = (n, some rest) := by
  induction pre generalizing vc0 with
  | nil => simp at hlast
  | cons l ls ih =>
    simp only [List.cons_append, hdrScan]
    rw [if_neg (hpre l (by simp)), hdrLineCount_declOf]
    by_cases hnil : ls.filterMap declOf = []
    · have hnd : ∀ x ∈ ls, declOf x = none := by
        simpa using (List.filterMap_eq_nil_iff.1 hnil)
      rcases hd : declOf l with _ | m
      · rw [List.filterMap_cons_none hd, hnil] at hlast; simp at hlast
      · rw [List.filterMap_cons_some hd, hnil] at hlast
        simp only [List.getLast?_singleton, Option.some.injEq] at hlast
        subst hlast
        rw [Option.getD_some, List.append_eq]
        rw [hdrScan_no_decl_term _ ls rest term hnd
          (fun x hx => hpre x (by simp [hx])) hterm]
        rw [hdrLineCount_declOf]
        have : declOf term = none := by
          unfold declOf
          rw [hterm]
          decide
        rw [this, Option.getD_none]
    · have hlast' : (ls.filterMap declOf).getLast? = some n := by
        rcases hd : declOf l with _ | m
        · rwa [List.filterMap_cons_none hd] at hlast
        · rw [List.filterMap_cons_some hd] at hlast
          rwa [getLast?_cons_ne_nil _ _ hnil] at hlast
      exact ih _ (fun x hx => hpre x (by simp [hx])) hlast'

/-- C5 witness: declarations of 10 then 1000 yield a declared count of
1000. -/
theorem C5_witness :
    hdrScan 0 ["element vertex 10".toList, "element vertex 1000".toList,
      "end_header".toList] = (1000, some []) := by
  have h := C5_last_declaration_wins 0 1000
    ["element vertex 10".toList, "element vertex 1000".toList] []
    "end_header".toList (by decide) (by decide) (by decide)
  simpa using h

/-! ### Streaming header-loop lemmas -/

theorem plyHeaderLoop_fst_none (cb : Bool) (cl : Nat) :
    ∀ (chunks : List (List Char)) (buf : List Char) (vc loaded : Nat),
      (∀ k ≤ chunks.length, ∀ l ∈ splitNl (buf ++ ((chunks.take k).flatten : List Char)),
        jsTrim l ≠ endHeaderL) →
      (plyHeaderLoop cb cl chunks buf vc loaded).1 = none := by
  intro chunks
  induction chunks with
  | nil => intro buf vc loaded _; rfl
  | cons c cs ih =>
    intro buf vc loaded h
    have h1 : ∀ l ∈ splitNl (buf ++ c), jsTrim l ≠ endHeaderL := by
      have := h 1 (by simp)
      simpa using this
    have hnone := hdrScan_snd_none vc (splitNl (buf ++ c)) h1
    simp only [plyHeaderLoop]
    rcases hsc : hdrScan vc (splitNl (buf ++ c)) with ⟨vc2, o⟩
    cases o with
    | some rest => rw [hsc] at hnone; simp at hnone
    | none =>
      have hr := ih (buf ++ c) vc2 (loaded + c.length) (by
        intro k hk l hl
        have hstep := h (k + 1) (by simpa using Nat.succ_le_succ hk) l
        simp only [List.take_succ_cons, List.flatten_cons, List.append_assoc] at hstep
        exact hstep (by simpa [List.append_assoc] using hl))
      rcases hrec : plyHeaderLoop cb cl cs (buf ++ c) vc2 (loaded + c.length) with ⟨r, ems⟩
      rw [hrec] at hr
      simp only at hr
      subst hr
      simp [hrec]

/-- C6: if the chunk stream is exhausted before any scan of the
accumulated buffer sees an `end_header` line, the streaming PLY load
fails with `MalformedHeader` and never produces a point array. -/
theorem C6_malformed_header (cb : Bool) (cl fuel : Nat) (chunks : List (List Char))
    (h : ∀ k ≤ chunks.length, ∀ l ∈ splitNl ((chunks.take k).flatten : List Char),
      jsTrim l ≠ endHeaderL) :
    (loadPLYFile cb cl fuel chunks).map Prod.fst = some (.error .malformedHeader) := by
  have hn := plyHeaderLoop_fst_none cb cl chunks [] 0 0 (by simpa using h)
  unfold loadPLYFile
  rcases hh : plyHeaderLoop cb cl chunks [] 0 0 with ⟨r, ems⟩
  rw [hh] at hn
  simp only at hn
  subst hn
  simp

/-- C6 witness: a stream with lines but no terminator fails with
`MalformedHeader`. -/
theorem C6_witness :
    (loadPLYFile true 0 5 ["element vertex 2\nhello\n1 2 3".toList]).map Prod.fst
      = some (.error .malformedHeader) :=
  C6_malformed_header true 0 5 ["element vertex 2\nhello\n1 2 3".toList] (by decide)

theorem plyHeaderLoop_fst_no_decl (cb : Bool) (cl : Nat) :
    ∀ (chunks : List (List Char)) (buf : List Char) (vc loaded : Nat),
      (∀ k ≤ chunks.length, ∀ l ∈ splitNl (buf ++ ((chunks.take k).flatten : List Char)),
        declOf l = none) →
      (∃ k, 1 ≤ k ∧ k ≤ chunks.length ∧
        ∃ l ∈ splitNl (buf ++ ((chunks.take k).flatten : List Char)), jsTrim l = endHeaderL) →
      ∃ buf2 loaded2 rest2,
        (plyHeaderLoop cb cl chunks buf vc loaded).1 = some (vc, buf2, loaded2, rest2) := by
  intro chunks
  induction chunks with
  | nil =>
    intro buf vc loaded _ hterm
    rcases hterm with ⟨k, hk1, hk0, _⟩
    exact absurd (le_trans hk1 hk0) (by simp)
  | cons c cs ih =>
    intro buf vc loaded hnd hterm
    have h1 : ∀ l ∈ splitNl (buf ++ c), declOf l = none := by
      have := hnd 1 (by simp)
      simpa using this
    have hfst : (hdrScan vc (splitNl (buf ++ c))).1 = vc :=
      hdrScan_fst_no_decl vc _ h1
    simp only [plyHeaderLoop]
    rcases hsc : hdrScan vc (splitNl (buf ++ c)) with ⟨vc2, o⟩
    rw [hsc] at hfst
    simp only at hfst
    subst hfst
    cases o with
    | some rest => exact ⟨joinNl rest, loaded + c.length, cs, rfl⟩
    | none =>
      have hnoterm : ¬ ∃ l ∈ splitNl (buf ++ c), jsTrim l = endHeaderL := by
        intro hc
        have := hdrScan_snd_isSome vc2 (splitNl (buf ++ c)) hc
        rw [hsc] at this
        simp at this
      have hterm' : ∃ k, 1 ≤ k ∧ k ≤ cs.length ∧
          ∃ l ∈ splitNl ((buf ++ c) ++ ((cs.take k).flatten : List Char)),
            jsTrim l = endHeaderL := by
        rcases hterm with ⟨k, hk1, hklen, l, hl, hlt⟩
        match k, hk1 with
        | 1, _ =>
          exact absurd ⟨l, by simpa using hl, hlt⟩ hnoterm
        | k + 2, _ =>
          refine ⟨k + 1, by simp, by simpa using hklen, l, ?_, hlt⟩
          simpa [List.append_assoc] using hl
      have hnd' : ∀ k ≤ cs.length,
          ∀ l ∈ splitNl ((buf ++ c) ++ ((cs.take k).flatten : List Char)), declOf l = none := by
        intro k hk l hl
        have hstep := hnd (k + 1) (by simpa using Nat.succ_le_succ hk) l
        simp only [List.take_succ_cons, List.flatten_cons, List.append_assoc] at hstep
        exact hstep (by simpa [List.append_assoc] using hl)
      rcases ih (buf ++ c) vc2 (loaded + c.length) hnd' hterm' with ⟨b2, l2, r2, hr⟩
      rcases hrec : plyHeaderLoop cb cl cs (buf ++ c) vc2 (loaded + c.length) with ⟨r, ems⟩
      rw [hrec] at hr
      simp only at hr
      exact ⟨b2, l2, r2, by simp [hrec, hr]⟩

/-- C9 counterexample: on a format-A input with a terminator but no
vertex-count declaration, `loadPLYFileOptimized` raises an error instead
of completing — contradicting the claim, which asserts the load completes
without failing. -/
theorem C9_counterexample :
    loadPLYFileOptimized "end_header\n1 2 3 255 0 0\n".toList = .error .noVertexCount := by
  rfl

/-- C9 (amended): on format-A input containing a terminator but no
vertex-count declaration, the streaming loader treats the declared count
as 0 and completes without failing, returning the zero records decoded;
the optimized variant (`loadPLYFileOptimized`) instead fails with its
missing-vertex-count error. -/
theorem C9_no_declaration (cb : Bool) (cl fuel : Nat) (chunks : List (List Char))
    (hnd : ∀ k ≤ chunks.length, ∀ l ∈ splitNl (((chunks.take k).flatten : List Char)),
      declOf l = none)
    (hterm : ∃ k, 1 ≤ k ∧ k ≤ chunks.length ∧
      ∃ l ∈ splitNl (((chunks.take k).flatten : List Char)), jsTrim l = endHeaderL) :
    (loadPLYFile cb cl fuel chunks).map Prod.fst = some (.ok ([] : List Point))
    ∧ loadPLYFileOptimized (chunks.flatten : List Char) = .error .noVertexCount := by
  constructor
  · rcases plyHeaderLoop_fst_no_decl cb cl chunks [] 0 0 (by simpa using hnd)
      (by simpa using hterm) with ⟨b2, l2, r2, hr⟩
    unfold loadPLYFile
    rcases hh : plyHeaderLoop cb cl chunks [] 0 0 with ⟨r, ems⟩
    rw [hh] at hr
    simp only at hr
    subst hr
    have hb : plyBodyLoop cb cl 0 fuel r2 b2 l2 [] = some ([], b2, l2, []) := by
      unfold plyBodyLoop
      simp
    simp [hb, plyTail]
  · have h := hdrScan_fst_no_decl 0 (splitNl (chunks.flatten : List Char)) (by
      have h2 := hnd chunks.length le_rfl
      simpa using h2)
    unfold loadPLYFileOptimized
    rw [h]
    simp

/-- C9 witness: a single-chunk stream starting directly with
`end_header`. -/
theorem C9_witness :
    (loadPLYFile true 5 0 ["end_header\n1 2 3 255 0 0\n".toList]).map Prod.fst
      = some (.ok ([] : List Point))
    ∧ loadPLYFileOptimized ((["end_header\n1 2 3 255 0 0\n".toList] : List (List Char)).flatten)
      = .error .noVertexCount :=
  C9_no_declaration true 5 0 ["end_header\n1 2 3 255 0 0\n".toList]
    (by decide)
    ⟨1, le_rfl, le_rfl, "end_header".toList, by decide, by decide⟩

/-! ### Callback non-interference (claim C10) -/

theorem plyHeaderLoop_fst_cb (cb cb' : Bool) (cl : Nat) :
    ∀ (chunks : List (List Char)) (buf : List Char) (vc loaded : Nat),
      (plyHeaderLoop cb cl chunks buf vc loaded).1
        = (plyHeaderLoop cb' cl chunks buf vc loaded).1 := by
  intro chunks
  induction chunks with
  | nil => intro buf vc loaded; rfl
  | cons c cs ih =>
    intro buf vc loaded
    simp only [plyHeaderLoop]
    rcases hsc : hdrScan vc (splitNl (buf ++ c)) with ⟨vc2, o⟩
    cases o with
    | some rest => rfl
    | none =>
      have hih := ih (buf ++ c) vc2 (loaded + c.length)
      rcases h1 : plyHeaderLoop cb cl cs (buf ++ c) vc2 (loaded + c.length) with ⟨r1, e1⟩
      rcases h2 : plyHeaderLoop cb' cl cs (buf ++ c) vc2 (loaded + c.length) with ⟨r2, e2⟩
      rw [h1, h2] at hih
      simp only at hih
      simp [h1, h2, hih]

theorem plyBodyLoop_cb (cb cb' : Bool) (cl vc : Nat) :
    ∀ (fuel : Nat) (chunks : List (List Char)) (buffer : List Char) (loaded : Nat)
      (pts : List Point),
      (plyBodyLoop cb cl vc fuel chunks buffer loaded pts).map (fun r => (r.1, r.2.1, r.2.2.1))
        = (plyBodyLoop cb' cl vc fuel chunks buffer loaded pts).map
            (fun r => (r.1, r.2.1, r.2.2.1)) := by
  intro fuel
  induction fuel with
  | zero => intro chunks buffer loaded pts; rfl
  | succ n ih =>
    intro chunks buffer loaded pts
    unfold plyBodyLoop
    split
    · rfl
    · cases chunks with
      | nil =>
        simp only []
        split
        · rfl
        · have hih := ih [] (carryBuf buffer) loaded (processLines vc (fullLines buffer) pts)
          rcases hr1 : plyBodyLoop cb cl vc n [] (carryBuf buffer) loaded
              (processLines vc (fullLines buffer) pts) with _ | ⟨p1, b1, l1, e1⟩
          · rcases hr2 : plyBodyLoop cb' cl vc n [] (carryBuf buffer) loaded
                (processLines vc (fullLines buffer) pts) with _ | ⟨p2, b2, l2, e2⟩
            · rfl
            · rw [hr1, hr2] at hih
              simp [Option.map_none', Option.map_some'] at hih
          · rcases hr2 : plyBodyLoop cb' cl vc n [] (carryBuf buffer) loaded
                (processLines vc (fullLines buffer) pts) with _ | ⟨p2, b2, l2, e2⟩
            · rw [hr1, hr2] at hih
              simp [Option.map_none', Option.map_some'] at hih
            · rw [hr1, hr2] at hih
              simp only [Option.map_some', Option.some.injEq, Prod.mk.injEq] at hih
              simp [hih.1, hih.2.1, hih.2.2]
      | cons c cs =>
        simp only []
        have hih := ih cs (carryBuf (buffer ++ c)) (loaded + c.length)
            (processLines vc (fullLines (buffer ++ c)) pts)
        rcases hr1 : plyBodyLoop cb cl vc n cs (carryBuf (buffer ++ c)) (loaded + c.length)
            (processLines vc (fullLines (buffer ++ c)) pts) with _ | ⟨p1, b1, l1, e1⟩
        · rcases hr2 : plyBodyLoop cb' cl vc n cs (carryBuf (buffer ++ c)) (loaded + c.length)
              (processLines vc (fullLines (buffer ++ c)) pts) with _ | ⟨p2, b2, l2, e2⟩
          · rfl
          · rw [hr1, hr2] at hih
            simp [Option.map_none', Option.map_some'] at hih
        · rcases hr2 : plyBodyLoop cb' cl vc n cs (carryBuf (buffer ++ c)) (loaded + c.length)
              (processLines vc (fullLines (buffer ++ c)) pts) with _ | ⟨p2, b2, l2, e2⟩
          · rw [hr1, hr2] at hih
            simp [Option.map_none', Option.map_some'] at hih
          · rw [hr1, hr2] at hih
            simp only [Option.map_some', Option.some.injEq, Prod.mk.injEq] at hih
            simp [hih.1, hih.2.1, hih.2.2]

theorem txtBodyLoop_cb (cb cb' : Bool) (cl : Nat) :
    ∀ (fuel : Nat) (chunks : List (List Char)) (buffer : List Char) (loaded : Nat)
      (pts : List Point),
      (txtBodyLoop cb cl fuel chunks buffer loaded pts).map (fun r => (r.1, r.2.1, r.2.2.1))
        = (txtBodyLoop cb' cl fuel chunks buffer loaded pts).map
            (fun r => (r.1, r.2.1, r.2.2.1)) := by
  intro fuel
  induction fuel with
  | zero => intro chunks buffer loaded pts; rfl
  | succ n ih =>
    intro chunks buffer loaded pts
    cases chunks with
    | nil =>
      simp only [txtBodyLoop]
      split
      · rfl
      · have hih := ih [] (carryBuf buffer) loaded (processLinesB (fullLines buffer) pts)
        rcases hr1 : txtBodyLoop cb cl n [] (carryBuf buffer) loaded
            (processLinesB (fullLines buffer) pts) with _ | ⟨p1, b1, l1, e1⟩
        · rcases hr2 : txtBodyLoop cb' cl n [] (carryBuf buffer) loaded
              (processLinesB (fullLines buffer) pts) with _ | ⟨p2, b2, l2, e2⟩
          · rfl
          · rw [hr1, hr2] at hih
            simp [Option.map_none', Option.map_some'] at hih
        · rcases hr2 : txtBodyLoop cb' cl n [] (carryBuf buffer) loaded
              (processLinesB (fullLines buffer) pts) with _ | ⟨p2, b2, l2, e2⟩
          · rw [hr1, hr2] at hih
            simp [Option.map_none', Option.map_some'] at hih
          · rw [hr1, hr2] at hih
            simp only [Option.map_some', Option.some.injEq, Prod.mk.injEq] at hih
            simp [hih.1, hih.2.1, hih.2.2]
    | cons c cs =>
      simp only [txtBodyLoop]
      have hih := ih cs (carryBuf (buffer ++ c)) (loaded + c.length)
          (processLinesB (fullLines (buffer ++ c)) pts)
      rcases hr1 : txtBodyLoop cb cl n cs (carryBuf (buffer ++ c)) (loaded + c.length)
          (processLinesB (fullLines (buffer ++ c)) pts) with _ | ⟨p1, b1, l1, e1⟩
      · rcases hr2 : txtBodyLoop cb' cl n cs (carryBuf (buffer ++ c)) (loaded + c.length)
            (processLinesB (fullLines (buffer ++ c)) pts) with _ | ⟨p2, b2, l2, e2⟩
        · rfl
        · rw [hr1, hr2] at hih
          simp [Option.map_none', Option.map_some'] at hih
      · rcases hr2 : txtBodyLoop cb' cl n cs (carryBuf (buffer ++ c)) (loaded + c.length)
            (processLinesB (fullLines (buffer ++ c)) pts) with _ | ⟨p2, b2, l2, e2⟩
        · rw [hr1, hr2] at hih
          simp [Option.map_none', Option.map_some'] at hih
        · rw [hr1, hr2] at hih
          simp only [Option.map_some', Option.some.injEq, Prod.mk.injEq] at hih
          simp [hih.1, hih.2.1, hih.2.2]

/-! ### Delimiter-scanning lemmas for the idx-based tokenizers -/

theorem idxOf_not_mem {c : Char} {l : List Char} (h : c ∉ l) : idxOf c l = none := by
  induction l with
  | nil => rfl
  | cons a rest ih =>
    simp only [List.mem_cons, not_or] at h
    simp only [idxOf]
    rw [if_neg (Ne.symm h.1), ih h.2]
    rfl

theorem idxOf_append {c : Char} (a b : List Char) (h : c ∉ a) :
    idxOf c (a ++ c :: b) = some a.length := by
  induction a with
  | nil => simp [idxOf]
  | cons x rest ih =>
    simp only [List.mem_cons, not_or] at h
    simp only [List.cons_append, idxOf]
    rw [if_neg (Ne.symm h.1), show rest.append (c :: b) = rest ++ c :: b from rfl, ih h.2]
    rfl

theorem indexOfFrom_not_found (a b : List Char) (c : Char) (h : c ∉ b) :
    indexOfFrom (a ++ b) c a.length = none := by
  unfold indexOfFrom
  rw [List.drop_left, idxOf_not_mem h]
  rfl

theorem indexOfFrom_found (a b d : List Char) (c : Char) (h : c ∉ b) :
    indexOfFrom (a ++ (b ++ c :: d)) c a.length = some (a.length + b.length) := by
  unfold indexOfFrom
  rw [List.drop_left, idxOf_append b d h]
  simp [Nat.add_comm]

theorem substr_start (a b : List Char) : substr (a ++ b) 0 a.length = a := by
  simp [substr, List.take_left]

theorem substr_mid (a b d : List Char) :
    substr (a ++ b ++ d) a.length (a.length + b.length) = b := by
  unfold substr
  rw [List.append_assoc, List.take_append, List.drop_left, List.take_left]

/-- C7 counterexample: the 3-numeric-field line `"1 2 3"` (shorter than
10 characters) is skipped by `loadTXTFile`'s short-line fast path and
yields NO point, contradicting the claim that every 3-numeric-field line
yields a white point. -/
theorem C7_counterexample :
    loadTXTFile false 0 3 ["1 2 3\n".toList] = some (.ok ([] : List Point), []) := by
  rfl

/-- C7 (amended): every line of length at least 10 consisting of exactly
three space-separated fields whose fields parse as numbers, and not
starting (after trimming) with the `#` comment marker, yields a point
with the parsed coordinates and color defaulted to full white
(255, 255, 255). (Lines shorter than 10 characters are skipped by the
fast path regardless of their fields.) -/
theorem C7_three_field_white (f1 f2 f3 : List Char) (x y z : Rat)
    (hf1 : ' ' ∉ f1) (hf2 : ' ' ∉ f2) (hf3 : ' ' ∉ f3)
    (hx : parseFloatJS f1 = some x) (hy : parseFloatJS f2 = some y)
    (hz : parseFloatJS f3 = some z)
    (hlen : 10 ≤ (f1 ++ ' ' :: f2 ++ ' ' :: f3).length)
    (hcom : (match jsTrim (f1 ++ ' ' :: f2 ++ ' ' :: f3) with
             | '#' :: _ => true | _ => false) = false) :
    parseLineB (f1 ++ ' ' :: f2 ++ ' ' :: f3)
      = some ⟨x, y, z, some 255, some 255, some 255⟩ := by
  have h1 : indexOfFrom (f1 ++ ' ' :: f2 ++ ' ' :: f3) ' ' 0 = some f1.length := by
    have h := indexOfFrom_found [] f1 (f2 ++ ' ' :: f3) ' ' hf1
    simpa using h
  have h2 : indexOfFrom (f1 ++ ' ' :: f2 ++ ' ' :: f3) ' ' (f1.length + 1)
      = some (f1.length + 1 + f2.length) := by
    have h := indexOfFrom_found (f1 ++ [' ']) f2 f3 ' ' hf2
    simpa [Nat.add_assoc] using h
  have hshape : (f1 ++ ' ' :: f2 ++ [' ']) ++ f3 = f1 ++ ' ' :: f2 ++ ' ' :: f3 := by
    simp
  have hlen2 : (f1 ++ ' ' :: f2 ++ [' ']).length = f1.length + 1 + f2.length + 1 := by
    simp only [List.length_append, List.length_cons, List.length_nil]
    omega
  have h3 : indexOfFrom (f1 ++ ' ' :: f2 ++ ' ' :: f3) ' ' (f1.length + 1 + f2.length + 1)
      = none := by
    have h := indexOfFrom_not_found (f1 ++ ' ' :: f2 ++ [' ']) f3 ' ' hf3
    rw [hshape, hlen2] at h
    exact h
  have s1 : substr (f1 ++ ' ' :: f2 ++ ' ' :: f3) 0 f1.length = f1 := by
    have h := substr_start f1 (' ' :: (f2 ++ ' ' :: f3))
    simpa using h
  have s2 : substr (f1 ++ ' ' :: f2 ++ ' ' :: f3) (f1.length + 1) (f1.length + 1 + f2.length)
      = f2 := by
    have h := substr_mid (f1 ++ [' ']) f2 (' ' :: f3)
    simpa [Nat.add_assoc] using h
  have s3 : (f1 ++ ' ' :: f2 ++ ' ' :: f3).drop (f1.length + 1 + f2.length + 1) = f3 := by
    have h : List.drop (f1.length + 1 + f2.length + 1) ((f1 ++ ' ' :: f2 ++ [' ']) ++ f3) = f3 :=
      List.drop_left' hlen2
    rw [hshape] at h
    exact h
  unfold parseLineB
  rw [if_neg (by omega : ¬ (f1 ++ ' ' :: f2 ++ ' ' :: f3).length < 10)]
  simp only [hcom, Bool.false_eq_true, if_false]
  simp only [h1, h2, h3, s1, s2, s3, hx, hy, hz]

/-- C7 witness: the line `"1.5 2.5 3.5"` yields the white point
(3/2, 5/2, 7/2, 255, 255, 255). -/
theorem C7_witness :
    parseLineB "1.5 2.5 3.5".toList
      = some ⟨3/2, 5/2, 7/2, some 255, some 255, some 255⟩ := by
  have he : "1.5 2.5 3.5".toList
      = "1.5".toList ++ ' ' :: "2.5".toList ++ ' ' :: "3.5".toList := by decide
  rw [he]
  exact C7_three_field_white "1.5".toList "2.5".toList "3.5".toList (3/2) (5/2) (7/2)
    (by decide) (by decide) (by decide)
    (by simp +decide [parseFloatJS, parseFloatBody, digitsToNat, parseExpVal] <;> norm_num)
    (by simp +decide [parseFloatJS, parseFloatBody, digitsToNat, parseExpVal] <;> norm_num)
    (by simp +decide [parseFloatJS, parseFloatBody, digitsToNat, parseExpVal] <;> norm_num)
    (by decide) (by decide)

/-! ### Counting delimiters (claim C2) -/

theorem idxOf_count {c : Char} :
    ∀ (m : List Char) (q : Nat), idxOf c m = some q →
      (m.drop (q + 1)).count c + 1 ≤ m.count c := by
  intro m
  induction m with
  | nil => intro q h; simp [idxOf] at h
  | cons a rest ih =>
    intro q h
    simp only [idxOf] at h
    by_cases ha : a = c
    · rw [if_pos ha] at h
      have hq : q = 0 := by
        have := Option.some.inj h
        omega
      subst hq
      simp [ha, List.count_cons]
    · rw [if_neg ha] at h
      rcases Option.map_eq_some'.1 h with ⟨q1, hq1, hq⟩
      subst hq
      have hrec := ih q1 hq1
      have hd : (a :: rest).drop (q1 + 1 + 1) = rest.drop (q1 + 1) := rfl
      rw [hd]
      have hc : (a :: rest).count c = rest.count c := by
        simp [List.count_cons, ha]
      omega

theorem count_ge_of_indexOfFrom (l : List Char) (c : Char) (s p : Nat)
    (h : indexOfFrom l c s = some p) :
    (l.drop (p + 1)).count c + 1 ≤ (l.drop s).count c := by
  unfold indexOfFrom at h
  rcases Option.map_eq_some'.1 h with ⟨q, hq, hpq⟩
  have hcnt := idxOf_count (l.drop s) q hq
  rw [List.drop_drop] at hcnt
  have he : s + (q + 1) = p + 1 := by omega
  rw [he] at hcnt
  exact hcnt

/-- C2 counterexample: the declared-count-1 input whose only body line has
five fields, `"10 20 30 40 50"`, is NOT skipped: the streaming loader
records it — counting it toward the decoded total — as a point whose `b`
channel is `NaN` (the fifth delimiter defaults to the line end, leaving an
empty sixth field), contradicting the claim on every conjunct. -/
theorem C2_counterexample :
    (loadPLYFile false 0 5 ["element vertex 1\nend_header\n10 20 30 40 50\n".toList]).map
        Prod.fst
      = some (.ok [⟨10, 20, 30, some 40, some 50, none⟩]) := by
  have hdr : plyHeaderLoop false 0 ["element vertex 1\nend_header\n10 20 30 40 50\n".toList]
      [] 0 0 = (some (1, "10 20 30 40 50\n".toList, 43, []), []) := by decide
  unfold loadPLYFile
  rw [hdr]
  simp +decide [plyBodyLoop.eq_def, carryBuf, fullLines, splitNl, processLines, parseLineA6,
    indexOfFrom, idxOf, substr, parseFloatJS, parseFloatBody, parseIntJS, digitsToNat,
    parseExpVal, jsIsSpace, jsTrim, plyBodyEm, plyTail, BATCH_SIZE, finEm]

/-- C2 (amended): a format-A body line is skipped silently by the
idx-based tokenizer when it is shorter than 10 characters or contains
fewer than four space delimiters (i.e. fewer than five space-separated
fields) — it contributes no point and does not count; but a line with
exactly four delimiters (five fields) is NOT skipped: the fifth delimiter
position defaults to the end of the line, the sixth field is empty, and
when the coordinates are numeric the line is recorded as a point whose
`b` channel is `NaN`. -/
theorem C2_skip_and_five_fields :
    (∀ l : List Char, l.length < 10 ∨ l.count ' ' < 4 → parseLineA6 l = none)
    ∧ ∀ (f1 f2 f3 f4 f5 : List Char) (x y z : Rat),
        ' ' ∉ f1 → ' ' ∉ f2 → ' ' ∉ f3 → ' ' ∉ f4 → ' ' ∉ f5 →
        parseFloatJS f1 = some x → parseFloatJS f2 = some y → parseFloatJS f3 = some z →
        10 ≤ (f1 ++ ' ' :: f2 ++ ' ' :: f3 ++ ' ' :: f4 ++ ' ' :: f5).length →
        parseLineA6 (f1 ++ ' ' :: f2 ++ ' ' :: f3 ++ ' ' :: f4 ++ ' ' :: f5)
          = some ⟨x, y, z, parseIntJS f4, parseIntJS f5, none⟩ := by
  constructor
  · intro l h
    unfold parseLineA6
    rcases h with hlen | hcnt
    · rw [if_pos hlen]
    · split
      · rfl
      · rcases h1 : indexOfFrom l ' ' 0 with _ | p1
        · rfl
        · rcases h2 : indexOfFrom l ' ' (p1 + 1) with _ | p2
          · simp [h2]
          · rcases h3 : indexOfFrom l ' ' (p2 + 1) with _ | p3
            · simp [h2, h3]
            · rcases h4 : indexOfFrom l ' ' (p3 + 1) with _ | p4
              · simp [h2, h3, h4]
              · exfalso
                have c1 := count_ge_of_indexOfFrom l ' ' 0 p1 h1
                have c2 := count_ge_of_indexOfFrom l ' ' (p1 + 1) p2 h2
                have c3 := count_ge_of_indexOfFrom l ' ' (p2 + 1) p3 h3
                have c4 := count_ge_of_indexOfFrom l ' ' (p3 + 1) p4 h4
                rw [List.drop_zero] at c1
                omega
  · intro f1 f2 f3 f4 f5 x y z hf1 hf2 hf3 hf4 hf5 hx hy hz hlen
    have hsh2 : (f1 ++ [' ']) ++ (f2 ++ ' ' :: (f3 ++ ' ' :: f4 ++ ' ' :: f5))
        = f1 ++ ' ' :: f2 ++ ' ' :: f3 ++ ' ' :: f4 ++ ' ' :: f5 := by simp
    have hln2 : (f1 ++ [' ']).length = f1.length + 1 := by simp
    have hsh3 : (f1 ++ ' ' :: f2 ++ [' ']) ++ (f3 ++ ' ' :: (f4 ++ ' ' :: f5))
        = f1 ++ ' ' :: f2 ++ ' ' :: f3 ++ ' ' :: f4 ++ ' ' :: f5 := by simp
    have hln3 : (f1 ++ ' ' :: f2 ++ [' ']).length = f1.length + 1 + f2.length + 1 := by
      simp only [List.length_append, List.length_cons, List.length_nil]
      omega
    have hsh4 : (f1 ++ ' ' :: f2 ++ ' ' :: f3 ++ [' ']) ++ (f4 ++ ' ' :: f5)
        = f1 ++ ' ' :: f2 ++ ' ' :: f3 ++ ' ' :: f4 ++ ' ' :: f5 := by simp
    have hln4 : (f1 ++ ' ' :: f2 ++ ' ' :: f3 ++ [' ']).length
        = f1.length + 1 + f2.length + 1 + f3.length + 1 := by
      simp only [List.length_append, List.length_cons, List.length_nil]
      omega
    have hsh5 : (f1 ++ ' ' :: f2 ++ ' ' :: f3 ++ ' ' :: f4 ++ [' ']) ++ f5
        = f1 ++ ' ' :: f2 ++ ' ' :: f3 ++ ' ' :: f4 ++ ' ' :: f5 := by simp
    have hln5 : (f1 ++ ' ' :: f2 ++ ' ' :: f3 ++ ' ' :: f4 ++ [' ']).length
        = f1.length + 1 + f2.length + 1 + f3.length + 1 + f4.length + 1 := by
      simp only [List.length_append, List.length_cons, List.length_nil]
      omega
    have h1 : indexOfFrom (f1 ++ ' ' :: f2 ++ ' ' :: f3 ++ ' ' :: f4 ++ ' ' :: f5) ' ' 0
        = some f1.length := by
      have h := indexOfFrom_found [] f1 (f2 ++ ' ' :: f3 ++ ' ' :: f4 ++ ' ' :: f5) ' ' hf1
      simpa using h
    have h2 : indexOfFrom (f1 ++ ' ' :: f2 ++ ' ' :: f3 ++ ' ' :: f4 ++ ' ' :: f5) ' '
        (f1.length + 1) = some (f1.length + 1 + f2.length) := by
      have h := indexOfFrom_found (f1 ++ [' ']) f2 (f3 ++ ' ' :: f4 ++ ' ' :: f5) ' ' hf2
      rw [hsh2, hln2] at h
      exact h
    have h3 : indexOfFrom (f1 ++ ' ' :: f2 ++ ' ' :: f3 ++ ' ' :: f4 ++ ' ' :: f5) ' '
        (f1.length + 1 + f2.length + 1)
        = some (f1.length + 1 + f2.length + 1 + f3.length) := by
      have h := indexOfFrom_found (f1 ++ ' ' :: f2 ++ [' ']) f3 (f4 ++ ' ' :: f5) ' ' hf3
      rw [hsh3, hln3] at h
      exact h
    have h4 : indexOfFrom (f1 ++ ' ' :: f2 ++ ' ' :: f3 ++ ' ' :: f4 ++ ' ' :: f5) ' '
        (f1.length + 1 + f2.length + 1 + f3.length + 1)
        = some (f1.length + 1 + f2.length + 1 + f3.length + 1 + f4.length) := by
      have h := indexOfFrom_found (f1 ++ ' ' :: f2 ++ ' ' :: f3 ++ [' ']) f4 f5 ' ' hf4
      rw [hsh4, hln4] at h
      exact h
    have h5 : indexOfFrom (f1 ++ ' ' :: f2 ++ ' ' :: f3 ++ ' ' :: f4 ++ ' ' :: f5) ' '
        (f1.length + 1 + f2.length + 1 + f3.length + 1 + f4.length + 1) = none := by
      have h := indexOfFrom_not_found (f1 ++ ' ' :: f2 ++ ' ' :: f3 ++ ' ' :: f4 ++ [' '])
        f5 ' ' hf5
      rw [hsh5, hln5] at h
      exact h
    have s1 : substr (f1 ++ ' ' :: f2 ++ ' ' :: f3 ++ ' ' :: f4 ++ ' ' :: f5) 0 f1.length
        = f1 := by
      have h := substr_start f1 (' ' :: (f2 ++ ' ' :: f3 ++ ' ' :: f4 ++ ' ' :: f5))
      simpa using h
    have s2 : substr (f1 ++ ' ' :: f2 ++ ' ' :: f3 ++ ' ' :: f4 ++ ' ' :: f5)
        (f1.length + 1) (f1.length + 1 + f2.length) = f2 := by
      have h := substr_mid (f1 ++ [' ']) f2 (' ' :: f3 ++ ' ' :: f4 ++ ' ' :: f5)
      have hsh : (f1 ++ [' ']) ++ f2 ++ (' ' :: f3 ++ ' ' :: f4 ++ ' ' :: f5)
          = f1 ++ ' ' :: f2 ++ ' ' :: f3 ++ ' ' :: f4 ++ ' ' :: f5 := by simp
      rw [hsh, hln2] at h
      exact h
    have s3 : substr (f1 ++ ' ' :: f2 ++ ' ' :: f3 ++ ' ' :: f4 ++ ' ' :: f5)
        (f1.length + 1 + f2.length + 1) (f1.length + 1 + f2.length + 1 + f3.length)
        = f3 := by
      have h := substr_mid (f1 ++ ' ' :: f2 ++ [' ']) f3 (' ' :: f4 ++ ' ' :: f5)
      have hsh : (f1 ++ ' ' :: f2 ++ [' ']) ++ f3 ++ (' ' :: f4 ++ ' ' :: f5)
          = f1 ++ ' ' :: f2 ++ ' ' :: f3 ++ ' ' :: f4 ++ ' ' :: f5 := by simp
      rw [hsh, hln3] at h
      exact h
    have s4 : substr (f1 ++ ' ' :: f2 ++ ' ' :: f3 ++ ' ' :: f4 ++ ' ' :: f5)
        (f1.length + 1 + f2.length + 1 + f3.length + 1)
        (f1.length + 1 + f2.length + 1 + f3.length + 1 + f4.length) = f4 := by
      have h := substr_mid (f1 ++ ' ' :: f2 ++ ' ' :: f3 ++ [' ']) f4 (' ' :: f5)
      have hsh : (f1 ++ ' ' :: f2 ++ ' ' :: f3 ++ [' ']) ++ f4 ++ (' ' :: f5)
          = f1 ++ ' ' :: f2 ++ ' ' :: f3 ++ ' ' :: f4 ++ ' ' :: f5 := by simp
      rw [hsh, hln4] at h
      exact h
    have s5 : substr (f1 ++ ' ' :: f2 ++ ' ' :: f3 ++ ' ' :: f4 ++ ' ' :: f5)
        (f1.length + 1 + f2.length + 1 + f3.length + 1 + f4.length + 1)
        (f1 ++ ' ' :: f2 ++ ' ' :: f3 ++ ' ' :: f4 ++ ' ' :: f5).length = f5 := by
      unfold substr
      rw [List.take_length]
      have h : List.drop (f1.length + 1 + f2.length + 1 + f3.length + 1 + f4.length + 1)
          ((f1 ++ ' ' :: f2 ++ ' ' :: f3 ++ ' ' :: f4 ++ [' ']) ++ f5) = f5 :=
        List.drop_left' hln5
      rw [hsh5] at h
      exact h
    have hb : (f1 ++ ' ' :: f2 ++ ' ' :: f3 ++ ' ' :: f4 ++ ' ' :: f5).drop
        ((f1 ++ ' ' :: f2 ++ ' ' :: f3 ++ ' ' :: f4 ++ ' ' :: f5).length + 1) = [] := by
      apply List.drop_eq_nil_of_le
      omega
    unfold parseLineA6
    rw [if_neg (by omega :
      ¬ (f1 ++ ' ' :: f2 ++ ' ' :: f3 ++ ' ' :: f4 ++ ' ' :: f5).length < 10)]
    simp only [h1, h2, h3, h4, h5, Option.getD_none, s1, s2, s3, s4, s5, hb, hx, hy, hz]
    rfl

/-- C2 witness: `"1 2 3 4"` (four fields, short) is skipped; the
five-field line `"10 20 30 40 50"` is recorded with `b = NaN`. -/
theorem C2_witness :
    parseLineA6 "1 2 3 4".toList = none
    ∧ parseLineA6 "10 20 30 40 50".toList
        = some ⟨10, 20, 30, some 40, some 50, none⟩ := by
  constructor
  · exact C2_skip_and_five_fields.1 "1 2 3 4".toList (Or.inl (by decide))
  · have he : "10 20 30 40 50".toList
        = "10".toList ++ ' ' :: "20".toList ++ ' ' :: "30".toList ++ ' ' :: "40".toList
            ++ ' ' :: "50".toList := by decide
    rw [he]
    rw [C2_skip_and_five_fields.2 "10".toList "20".toList "30".toList "40".toList "50".toList
      10 20 30 (by decide) (by decide) (by decide) (by decide) (by decide)
      (by simp +decide [parseFloatJS, parseFloatBody, digitsToNat, parseExpVal] <;> norm_num)
      (by simp +decide [parseFloatJS, parseFloatBody, digitsToNat, parseExpVal] <;> norm_num)
      (by simp +decide [parseFloatJS, parseFloatBody, digitsToNat, parseExpVal] <;> norm_num)
      (by decide)]
    simp +decide [parseIntJS, digitsToNat, jsIsSpace]

/-- C8: a 6-field format-B line whose position fields parse as numbers
yields a point whose colors are the parsed integers with a per-channel
fallback to 255 when a channel fails to parse; when a position field
fails to parse numerically the line yields no point at all. -/
theorem C8_six_field_fallback (f1 f2 f3 f4 f5 f6 : List Char)
    (hf1 : ' ' ∉ f1) (hf2 : ' ' ∉ f2) (hf3 : ' ' ∉ f3)
    (hf4 : ' ' ∉ f4) (hf5 : ' ' ∉ f5) (hf6 : ' ' ∉ f6)
    (hne4 : f4 ≠ []) (hne5 : f5 ≠ []) (hne6 : f6 ≠ [])
    (hcom : (match jsTrim (f1 ++ ' ' :: f2 ++ ' ' :: f3 ++ ' ' :: f4 ++ ' ' :: f5 ++ ' ' :: f6)
             with | '#' :: _ => true | _ => false) = false) :
    (∀ x y z : Rat, parseFloatJS f1 = some x → parseFloatJS f2 = some y →
      parseFloatJS f3 = some z →
      parseLineB (f1 ++ ' ' :: f2 ++ ' ' :: f3 ++ ' ' :: f4 ++ ' ' :: f5 ++ ' ' :: f6)
        = some ⟨x, y, z, some ((parseIntJS f4).getD 255), some ((parseIntJS f5).getD 255),
            some ((parseIntJS f6).getD 255)⟩)
    ∧ (parseFloatJS f1 = none ∨ parseFloatJS f2 = none ∨ parseFloatJS f3 = none →
      parseLineB (f1 ++ ' ' :: f2 ++ ' ' :: f3 ++ ' ' :: f4 ++ ' ' :: f5 ++ ' ' :: f6)
        = none) := by
  have hsh2 : (f1 ++ [' ']) ++ (f2 ++ ' ' :: (f3 ++ ' ' :: f4 ++ ' ' :: f5 ++ ' ' :: f6))
      = f1 ++ ' ' :: f2 ++ ' ' :: f3 ++ ' ' :: f4 ++ ' ' :: f5 ++ ' ' :: f6 := by simp
  have hln2 : (f1 ++ [' ']).length = f1.length + 1 := by simp
  have hsh3 : (f1 ++ ' ' :: f2 ++ [' ']) ++ (f3 ++ ' ' :: (f4 ++ ' ' :: f5 ++ ' ' :: f6))
      = f1 ++ ' ' :: f2 ++ ' ' :: f3 ++ ' ' :: f4 ++ ' ' :: f5 ++ ' ' :: f6 := by simp
  have hln3 : (f1 ++ ' ' :: f2 ++ [' ']).length = f1.length + 1 + f2.length + 1 := by
    simp only [List.length_append, List.length_cons, List.length_nil]
    omega
  have hsh4 : (f1 ++ ' ' :: f2 ++ ' ' :: f3 ++ [' ']) ++ (f4 ++ ' ' :: (f5 ++ ' ' :: f6))
      = f1 ++ ' ' :: f2 ++ ' ' :: f3 ++ ' ' :: f4 ++ ' ' :: f5 ++ ' ' :: f6 := by simp
  have hln4 : (f1 ++ ' ' :: f2 ++ ' ' :: f3 ++ [' ']).length
      = f1.length + 1 + f2.length + 1 + f3.length + 1 := by
    simp only [List.length_append, List.length_cons, List.length_nil]
    omega
  have hsh5 : (f1 ++ ' ' :: f2 ++ ' ' :: f3 ++ ' ' :: f4 ++ [' ']) ++ (f5 ++ ' ' :: f6)
      = f1 ++ ' ' :: f2 ++ ' ' :: f3 ++ ' ' :: f4 ++ ' ' :: f5 ++ ' ' :: f6 := by simp
  have hln5 : (f1 ++ ' ' :: f2 ++ ' ' :: f3 ++ ' ' :: f4 ++ [' ']).length
      = f1.length + 1 + f2.length + 1 + f3.length + 1 + f4.length + 1 := by
    simp only [List.length_append, List.length_cons, List.length_nil]
    omega
  have hsh6 : (f1 ++ ' ' :: f2 ++ ' ' :: f3 ++ ' ' :: f4 ++ ' ' :: f5 ++ [' ']) ++ f6
      = f1 ++ ' ' :: f2 ++ ' ' :: f3 ++ ' ' :: f4 ++ ' ' :: f5 ++ ' ' :: f6 := by simp
  have hln6 : (f1 ++ ' ' :: f2 ++ ' ' :: f3 ++ ' ' :: f4 ++ ' ' :: f5 ++ [' ']).length
      = f1.length + 1 + f2.length + 1 + f3.length + 1 + f4.length + 1 + f5.length + 1 := by
    simp only [List.length_append, List.length_cons, List.length_nil]
    omega
  have h1 : indexOfFrom (f1 ++ ' ' :: f2 ++ ' ' :: f3 ++ ' ' :: f4 ++ ' ' :: f5 ++ ' ' :: f6)
      ' ' 0 = some f1.length := by
    have h := indexOfFrom_found [] f1 (f2 ++ ' ' :: f3 ++ ' ' :: f4 ++ ' ' :: f5 ++ ' ' :: f6)
      ' ' hf1
    simpa using h
  have h2 : indexOfFrom (f1 ++ ' ' :: f2 ++ ' ' :: f3 ++ ' ' :: f4 ++ ' ' :: f5 ++ ' ' :: f6)
      ' ' (f1.length + 1) = some (f1.length + 1 + f2.length) := by
    have h := indexOfFrom_found (f1 ++ [' ']) f2 (f3 ++ ' ' :: f4 ++ ' ' :: f5 ++ ' ' :: f6)
      ' ' hf2
    rw [hsh2, hln2] at h
    exact h
  have h3 : indexOfFrom (f1 ++ ' ' :: f2 ++ ' ' :: f3 ++ ' ' :: f4 ++ ' ' :: f5 ++ ' ' :: f6)
      ' ' (f1.length + 1 + f2.length + 1)
      = some (f1.length + 1 + f2.length + 1 + f3.length) := by
    have h := indexOfFrom_found (f1 ++ ' ' :: f2 ++ [' ']) f3
      (f4 ++ ' ' :: f5 ++ ' ' :: f6) ' ' hf3
    rw [hsh3, hln3] at h
    exact h
  have h4 : indexOfFrom (f1 ++ ' ' :: f2 ++ ' ' :: f3 ++ ' ' :: f4 ++ ' ' :: f5 ++ ' ' :: f6)
      ' ' (f1.length + 1 + f2.length + 1 + f3.length + 1)
      = some (f1.length + 1 + f2.length + 1 + f3.length + 1 + f4.length) := by
    have h := indexOfFrom_found (f1 ++ ' ' :: f2 ++ ' ' :: f3 ++ [' ']) f4
      (f5 ++ ' ' :: f6) ' ' hf4
    rw [hsh4, hln4] at h
    exact h
  have h5 : indexOfFrom (f1 ++ ' ' :: f2 ++ ' ' :: f3 ++ ' ' :: f4 ++ ' ' :: f5 ++ ' ' :: f6)
      ' ' (f1.length + 1 + f2.length + 1 + f3.length + 1 + f4.length + 1)
      = some (f1.length + 1 + f2.length + 1 + f3.length + 1 + f4.length + 1 + f5.length) := by
    have h := indexOfFrom_found (f1 ++ ' ' :: f2 ++ ' ' :: f3 ++ ' ' :: f4 ++ [' ']) f5 f6
      ' ' hf5
    rw [hsh5, hln5] at h
    exact h
  have s1 : substr (f1 ++ ' ' :: f2 ++ ' ' :: f3 ++ ' ' :: f4 ++ ' ' :: f5 ++ ' ' :: f6)
      0 f1.length = f1 := by
    have h := substr_start f1 (' ' :: (f2 ++ ' ' :: f3 ++ ' ' :: f4 ++ ' ' :: f5 ++ ' ' :: f6))
    simpa using h
  have s2 : substr (f1 ++ ' ' :: f2 ++ ' ' :: f3 ++ ' ' :: f4 ++ ' ' :: f5 ++ ' ' :: f6)
      (f1.length + 1) (f1.length + 1 + f2.length) = f2 := by
    have h := substr_mid (f1 ++ [' ']) f2 (' ' :: f3 ++ ' ' :: f4 ++ ' ' :: f5 ++ ' ' :: f6)
    have hsh : (f1 ++ [' ']) ++ f2 ++ (' ' :: f3 ++ ' ' :: f4 ++ ' ' :: f5 ++ ' ' :: f6)
        = f1 ++ ' ' :: f2 ++ ' ' :: f3 ++ ' ' :: f4 ++ ' ' :: f5 ++ ' ' :: f6 := by simp
    rw [hsh, hln2] at h
    exact h
  have s3 : substr (f1 ++ ' ' :: f2 ++ ' ' :: f3 ++ ' ' :: f4 ++ ' ' :: f5 ++ ' ' :: f6)
      (f1.length + 1 + f2.length + 1) (f1.length + 1 + f2.length + 1 + f3.length) = f3 := by
    have h := substr_mid (f1 ++ ' ' :: f2 ++ [' ']) f3 (' ' :: f4 ++ ' ' :: f5 ++ ' ' :: f6)
    have hsh : (f1 ++ ' ' :: f2 ++ [' ']) ++ f3 ++ (' ' :: f4 ++ ' ' :: f5 ++ ' ' :: f6)
        = f1 ++ ' ' :: f2 ++ ' ' :: f3 ++ ' ' :: f4 ++ ' ' :: f5 ++ ' ' :: f6 := by simp
    rw [hsh, hln3] at h
    exact h
  have s4 : substr (f1 ++ ' ' :: f2 ++ ' ' :: f3 ++ ' ' :: f4 ++ ' ' :: f5 ++ ' ' :: f6)
      (f1.length + 1 + f2.length + 1 + f3.length + 1)
      (f1.length + 1 + f2.length + 1 + f3.length + 1 + f4.length) = f4 := by
    have h := substr_mid (f1 ++ ' ' :: f2 ++ ' ' :: f3 ++ [' ']) f4 (' ' :: f5 ++ ' ' :: f6)
    have hsh : (f1 ++ ' ' :: f2 ++ ' ' :: f3 ++ [' ']) ++ f4 ++ (' ' :: f5 ++ ' ' :: f6)
        = f1 ++ ' ' :: f2 ++ ' ' :: f3 ++ ' ' :: f4 ++ ' ' :: f5 ++ ' ' :: f6 := by simp
    rw [hsh, hln4] at h
    exact h
  have s5 : substr (f1 ++ ' ' :: f2 ++ ' ' :: f3 ++ ' ' :: f4 ++ ' ' :: f5 ++ ' ' :: f6)
      (f1.length + 1 + f2.length + 1 + f3.length + 1 + f4.length + 1)
      (f1.length + 1 + f2.length + 1 + f3.length + 1 + f4.length + 1 + f5.length) = f5 := by
    have h := substr_mid (f1 ++ ' ' :: f2 ++ ' ' :: f3 ++ ' ' :: f4 ++ [' ']) f5 (' ' :: f6)
    have hsh : (f1 ++ ' ' :: f2 ++ ' ' :: f3 ++ ' ' :: f4 ++ [' ']) ++ f5 ++ (' ' :: f6)
        = f1 ++ ' ' :: f2 ++ ' ' :: f3 ++ ' ' :: f4 ++ ' ' :: f5 ++ ' ' :: f6 := by simp
    rw [hsh, hln5] at h
    exact h
  have s6 : (f1 ++ ' ' :: f2 ++ ' ' :: f3 ++ ' ' :: f4 ++ ' ' :: f5 ++ ' ' :: f6).drop
      (f1.length + 1 + f2.length + 1 + f3.length + 1 + f4.length + 1 + f5.length + 1)
      = f6 := by
    have h : List.drop
        (f1.length + 1 + f2.length + 1 + f3.length + 1 + f4.length + 1 + f5.length + 1)
        ((f1 ++ ' ' :: f2 ++ ' ' :: f3 ++ ' ' :: f4 ++ ' ' :: f5 ++ [' ']) ++ f6) = f6 :=
      List.drop_left' hln6
    rw [hsh6] at h
    exact h
  constructor
  · intro x y z hx hy hz
    have hne1 : f1 ≠ [] := by
      intro hc
      rw [hc] at hx
      exact absurd hx (by simp [parseFloatJS, parseFloatBody])
    have hne2 : f2 ≠ [] := by
      intro hc
      rw [hc] at hy
      exact absurd hy (by simp [parseFloatJS, parseFloatBody])
    have hne3 : f3 ≠ [] := by
      intro hc
      rw [hc] at hz
      exact absurd hz (by simp [parseFloatJS, parseFloatBody])
    have hlen : ¬ (f1 ++ ' ' :: f2 ++ ' ' :: f3 ++ ' ' :: f4 ++ ' ' :: f5 ++ ' ' :: f6).length
        < 10 := by
      have e1 : 1 ≤ f1.length := List.length_pos.2 hne1
      have e2 : 1 ≤ f2.length := List.length_pos.2 hne2
      have e3 : 1 ≤ f3.length := List.length_pos.2 hne3
      have e4 : 1 ≤ f4.length := List.length_pos.2 hne4
      have e5 : 1 ≤ f5.length := List.length_pos.2 hne5
      have e6 : 1 ≤ f6.length := List.length_pos.2 hne6
      simp only [List.length_append, List.length_cons]
      omega
    unfold parseLineB
    rw [if_neg hlen]
    simp only [hcom, Bool.false_eq_true, if_false]
    simp only [h1, h2, h3, h4, h5, Option.getD_some, s1, s2, s3, s4, s5, s6, hx, hy, hz]
  · intro hfail
    by_cases hlen : (f1 ++ ' ' :: f2 ++ ' ' :: f3 ++ ' ' :: f4 ++ ' ' :: f5 ++ ' ' :: f6).length
        < 10
    · unfold parseLineB
      rw [if_pos hlen]
    · unfold parseLineB
      rw [if_neg hlen]
      simp only [hcom, Bool.false_eq_true, if_false]
      simp only [h1, h2, h3, h4, h5, Option.getD_some, s1, s2, s3]
      rcases e1 : parseFloatJS f1 with _ | x1 <;>
        rcases e2 : parseFloatJS f2 with _ | x2 <;>
          rcases e3 : parseFloatJS f3 with _ | x3 <;>
            simp_all

/-- C8 witness: the line `"1.5 2.5 3.5 zz 7 8"` (unparsable 4th field)
yields the point (3/2, 5/2, 7/2) with color (255, 7, 8). -/
theorem C8_witness :
    parseLineB "1.5 2.5 3.5 zz 7 8".toList
      = some ⟨3/2, 5/2, 7/2, some 255, some 7, some 8⟩ := by
  have he : "1.5 2.5 3.5 zz 7 8".toList
      = "1.5".toList ++ ' ' :: "2.5".toList ++ ' ' :: "3.5".toList ++ ' ' :: "zz".toList
          ++ ' ' :: "7".toList ++ ' ' :: "8".toList := by decide
  rw [he]
  rw [(C8_six_field_fallback "1.5".toList "2.5".toList "3.5".toList "zz".toList "7".toList
      "8".toList (by decide) (by decide) (by decide) (by decide) (by decide) (by decide)
      (by decide) (by decide) (by decide) (by decide)).1 (3/2) (5/2) (7/2)
    (by simp +decide [parseFloatJS, parseFloatBody, digitsToNat, parseExpVal] <;> norm_num)
    (by simp +decide [parseFloatJS, parseFloatBody, digitsToNat, parseExpVal] <;> norm_num)
    (by simp +decide [parseFloatJS, parseFloatBody, digitsToNat, parseExpVal] <;> norm_num)]
  simp +decide [parseIntJS, digitsToNat, jsIsSpace]

/-- C10: supplying an `onProgress` callback never changes the returned
result: for both streaming loaders, the points (or error) produced from
the same chunks, content length and fuel are identical with and without a
callback — progress emission and batch-boundary yielding observe the
parse but do not influence it. -/
theorem C10_callback_never_influences_result (cl fuel : Nat) (chunks : List (List Char)) :
    (loadPLYFile true cl fuel chunks).map Prod.fst
      = (loadPLYFile false cl fuel chunks).map Prod.fst
    ∧ (loadTXTFile true cl fuel chunks).map Prod.fst
      = (loadTXTFile false cl fuel chunks).map Prod.fst := by
  constructor
  · unfold loadPLYFile
    have hh := plyHeaderLoop_fst_cb true false cl chunks [] 0 0
    rcases h1 : plyHeaderLoop true cl chunks [] 0 0 with ⟨r1, e1⟩
    rcases h2 : plyHeaderLoop false cl chunks [] 0 0 with ⟨r2, e2⟩
    rw [h1, h2] at hh
    simp only at hh
    subst hh
    cases r1 with
    | none => rfl
    | some v =>
      rcases v with ⟨vc, buf, loaded, rest⟩
      simp only []
      have hb := plyBodyLoop_cb true false cl vc fuel rest buf loaded []
      rcases hb1 : plyBodyLoop true cl vc fuel rest buf loaded [] with _ | ⟨p1, b1, l1, be1⟩
      · rcases hb2 : plyBodyLoop false cl vc fuel rest buf loaded [] with _ | ⟨p2, b2, l2, be2⟩
        · rfl
        · rw [hb1, hb2] at hb
          simp [Option.map_none', Option.map_some'] at hb
      · rcases hb2 : plyBodyLoop false cl vc fuel rest buf loaded [] with _ | ⟨p2, b2, l2, be2⟩
        · rw [hb1, hb2] at hb
          simp [Option.map_none', Option.map_some'] at hb
        · rw [hb1, hb2] at hb
          simp only [Option.map_some', Option.some.injEq, Prod.mk.injEq] at hb
          obtain ⟨hp, hbuf, hl⟩ := hb
          subst hp; subst hbuf; subst hl
          simp [apply_ite]
  · unfold loadTXTFile
    have hb := txtBodyLoop_cb true false cl fuel chunks [] 0 []
    rcases hb1 : txtBodyLoop true cl fuel chunks [] 0 [] with _ | ⟨p1, b1, l1, be1⟩
    · rcases hb2 : txtBodyLoop false cl fuel chunks [] 0 [] with _ | ⟨p2, b2, l2, be2⟩
      · rfl
      · rw [hb1, hb2] at hb
        simp [Option.map_none', Option.map_some'] at hb
    · rcases hb2 : txtBodyLoop false cl fuel chunks [] 0 [] with _ | ⟨p2, b2, l2, be2⟩
      · rw [hb1, hb2] at hb
        simp [Option.map_none', Option.map_some'] at hb
      · rw [hb1, hb2] at hb
        simp only [Option.map_some', Option.some.injEq, Prod.mk.injEq] at hb
        obtain ⟨hp, hbuf, hl⟩ := hb
        subst hp; subst hbuf; subst hl
        rfl

/-! ### C1: well-formed format-A bodies yield exactly the declared count -/

/-- A line trimming to empty is skipped by the simple format-A parser. -/
theorem parseLineASimple_blank (l : List Char) (h : jsTrim l = []) :
    parseLineASimple l = none := by
  simp [parseLineASimple, h]

/-- The points produced by filtering the body lines through the simple
parser are exactly as many as the parsable lines. -/
theorem length_filterMap_parseA (ls : List (List Char)) :
    (ls.filterMap parseLineASimple).length
      = ls.countP (fun l => (parseLineASimple l).isSome) := by
  induction ls with
  | nil => rfl
  | cons l rest ih =>
    rcases hp : parseLineASimple l with _ | p
    · rw [List.filterMap_cons_none hp, List.countP_cons]
      simp [hp, ih]
    · rw [List.filterMap_cons_some hp, List.countP_cons]
      simp [hp, ih]

/-- When every body line either parses or is blank and the parsable lines
do not exceed the declared count, the body loop appends exactly the
parsable lines' points, in input order. -/
theorem bodyA_wellformed (vc : Nat) :
    ∀ (ls : List (List Char)) (pts : List Point),
      (∀ l ∈ ls, (parseLineASimple l).isSome = true ∨ jsTrim l = []) →
      pts.length + ls.countP (fun l => (parseLineASimple l).isSome) ≤ vc →
      bodyA vc ls pts = pts ++ ls.filterMap parseLineASimple := by
  intro ls
  induction ls with
  | nil => intro pts _ _; simp [bodyA]
  | cons l rest ih =>
    intro pts hwf hcnt
    rcases hwf l (by simp) with hsome | hblank
    · rcases hp : parseLineASimple l with _ | p
      · rw [hp] at hsome; simp at hsome
      · have hlt : ¬ vc ≤ pts.length := by
          rw [List.countP_cons] at hcnt
          simp only [hp, Option.isSome_some, if_true] at hcnt
          omega
        simp only [bodyA]
        rw [if_neg hlt, hp, List.filterMap_cons_some hp]
        have hrec := ih (pts ++ [p]) (fun m hm => hwf m (List.mem_cons_of_mem _ hm))
          (by
            rw [List.countP_cons] at hcnt
            simp only [hp, Option.isSome_some, if_true] at hcnt
            simp only [List.length_append, List.length_cons, List.length_nil]
            omega)
        show bodyA vc rest (pts ++ [p]) = pts ++ p :: rest.filterMap parseLineASimple
        rw [hrec]
        simp
    · have hnone : parseLineASimple l = none := parseLineASimple_blank l hblank
      by_cases hge : vc ≤ pts.length
      · have hz : (l :: rest).countP (fun l => (parseLineASimple l).isSome) = 0 := by
          omega
        have hnil : (l :: rest).filterMap parseLineASimple = [] := by
          rw [List.filterMap_eq_nil_iff]
          intro a ha
          have hz2 := List.countP_eq_zero.mp hz a ha
          simpa using hz2
        rw [hnil]
        simp [bodyA, hge]
      · simp only [bodyA]
        rw [if_neg hge, hnone, List.filterMap_cons_none hnone]
        exact ih pts (fun m hm => hwf m (List.mem_cons_of_mem _ hm))
          (by rw [List.countP_cons] at hcnt; simp only [hnone] at hcnt; omega)

/-- C1: for every format-A input whose header scan declares `vc` and
leaves the body lines `rest`, if every body line parses as a well-formed
6-field line or is blank, and exactly `vc` lines parse, then the loader
returns exactly those `vc` parsed points in input line order. -/
theorem C1_wellformed_body_yields_declared_count (t : List Char) (vc : Nat)
    (rest : List (List Char))
    (hh : hdrScan 0 (splitNl t) = (vc, some rest))
    (hwf : ∀ l ∈ rest, (parseLineASimple l).isSome = true ∨ jsTrim l = [])
    (hcount : rest.countP (fun l => (parseLineASimple l).isSome) = vc) :
    loadPLYFileSimple t = some (rest.filterMap parseLineASimple)
      ∧ (rest.filterMap parseLineASimple).length = vc := by
  refine ⟨?_, ?_⟩
  · have hred : loadPLYFileSimple t = some (bodyA vc rest []) := by
      unfold loadPLYFileSimple
      rw [hh]
    rw [hred, bodyA_wellformed vc rest [] hwf
      (by simp only [List.length_nil, Nat.zero_add, hcount, le_refl])]
    simp
  · rw [length_filterMap_parseA]
    exact hcount

/-- The C1 end-to-end scenario: a two-line body under a declared count of
2 yields exactly the two declared points. -/
theorem C1_witness :
    loadPLYFileSimple
        "element vertex 2\nend_header\n1 2 3 255 0 0\n4 5 6 0 255 0\n".toList
      = some [⟨1, 2, 3, some 255, some 0, some 0⟩,
              ⟨4, 5, 6, some 0, some 255, some 0⟩] := by
  have h := C1_wellformed_body_yields_declared_count
      "element vertex 2\nend_header\n1 2 3 255 0 0\n4 5 6 0 255 0\n".toList 2
      ["1 2 3 255 0 0".toList, "4 5 6 0 255 0".toList, []]
      (by decide) (by decide) (by decide)
  rw [h.1]
  simp +decide [parseLineASimple, splitWs, splitWsGo, jsTrim, jsIsSpace,
    parseFloatJS, parseFloatBody, parseIntJS, digitsToNat, parseExpVal]

/-! ### C4: progress emission facts -/

/-- Option-to-list membership for `getLast?`. -/
theorem mem_of_getLast?_eq {α : Type} {l : List α} {a : α}
    (h : l.getLast? = some a) : a ∈ l := by
  have hm : a ∈ l.getLast? := Option.mem_def.mpr h
  obtain ⟨hne, heq⟩ := List.mem_getLast?_eq_getLast hm
  rw [heq]
  exact List.getLast_mem hne

/-- Header-phase percentages are nonnegative. -/
theorem hdrPerc_nonneg (cl lb : Nat) :
    0 ≤ min (((lb : Rat) / (cl : Rat)) * 50) 50 :=
  le_min (by positivity) (by norm_num)

/-- Header-phase percentages are capped at 50. -/
theorem hdrPerc_le_50 (cl lb : Nat) :
    min (((lb : Rat) / (cl : Rat)) * 50) 50 ≤ 50 :=
  min_le_right _ _

/-- Header-phase percentages are monotone in the byte count. -/
theorem hdrPerc_mono (cl : Nat) {a b : Nat} (h : a ≤ b) :
    min (((a : Rat) / (cl : Rat)) * 50) 50
      ≤ min (((b : Rat) / (cl : Rat)) * 50) 50 := by
  have hab : (a : Rat) ≤ (b : Rat) := by exact_mod_cast h
  have hcl : (0 : Rat) ≤ (cl : Rat) := by positivity
  exact min_le_min (by gcongr) le_rfl

/-- Body-phase percentages are at least 50. -/
theorem bodyPerc_ge_50 (vc pi2 : Nat) :
    (50 : Rat) ≤ 50 + ((pi2 : Rat) / (vc : Rat)) * 50 := by
  have : (0 : Rat) ≤ ((pi2 : Rat) / (vc : Rat)) * 50 := by positivity
  linarith

/-- Body-phase percentages are monotone in the record count. -/
theorem bodyPerc_mono (vc : Nat) {a b : Nat} (h : a ≤ b) :
    50 + ((a : Rat) / (vc : Rat)) * 50
      ≤ 50 + ((b : Rat) / (vc : Rat)) * 50 := by
  have hab : (a : Rat) ≤ (b : Rat) := by exact_mod_cast h
  have hcl : (0 : Rat) ≤ (vc : Rat) := by positivity
  gcongr

/-- Body-phase percentages are capped at 100 while the record count stays
within the declared count. -/
theorem bodyPerc_le_100 (vc pi2 : Nat) (h : pi2 ≤ vc) :
    50 + ((pi2 : Rat) / (vc : Rat)) * 50 ≤ 100 := by
  rcases Nat.eq_zero_or_pos vc with h0 | h0
  · subst h0
    norm_num
  · have hv : (0 : Rat) < (vc : Rat) := by exact_mod_cast h0
    have : ((pi2 : Rat) / (vc : Rat)) ≤ 1 := by
      rw [div_le_one hv]
      exact_mod_cast h
    linarith

/-- Body-phase percentages are strictly below 100 while strictly fewer
records than declared have been decoded. -/
theorem bodyPerc_lt_100 (vc pi2 : Nat) (h : pi2 < vc) :
    50 + ((pi2 : Rat) / (vc : Rat)) * 50 < 100 := by
  have h0 : 0 < vc := Nat.lt_of_le_of_lt (Nat.zero_le _) h
  have hv : (0 : Rat) < (vc : Rat) := by exact_mod_cast h0
  have : ((pi2 : Rat) / (vc : Rat)) < 1 := by
    rw [div_lt_one hv]
    exact_mod_cast h
  linarith

/-- The streaming body line processor never removes points. -/
theorem processLines_length_mono (vc : Nat) :
    ∀ (ls : List (List Char)) (pts : List Point),
      pts.length ≤ (processLines vc ls pts).length := by
  intro ls
  induction ls with
  | nil => intro pts; simp [processLines]
  | cons l rest ih =>
    intro pts
    simp only [processLines]
    by_cases hg : vc ≤ pts.length
    · rw [if_pos hg]
    · rw [if_neg hg]
      rcases hp : parseLineA6 l with _ | p
      · exact ih pts
      · calc pts.length ≤ (pts ++ [p]).length := by simp
          _ ≤ (processLines vc rest (pts ++ [p])).length := ih (pts ++ [p])

/-- The streaming body line processor never exceeds the declared count. -/
theorem processLines_length_le (vc : Nat) :
    ∀ (ls : List (List Char)) (pts : List Point),
      pts.length ≤ vc → (processLines vc ls pts).length ≤ vc := by
  intro ls
  induction ls with
  | nil => intro pts h; simpa [processLines] using h
  | cons l rest ih =>
    intro pts h
    simp only [processLines]
    by_cases hg : vc ≤ pts.length
    · rw [if_pos hg]
      exact h
    · rw [if_neg hg]
      rcases hp : parseLineA6 l with _ | p
      · exact ih pts h
      · exact ih (pts ++ [p]) (by simp; omega)

/-- The tail-fragment step never removes points. -/
theorem plyTail_length_ge (vc : Nat) (buf : List Char) (pts : List Point) :
    pts.length ≤ (plyTail vc buf pts).length := by
  unfold plyTail
  by_cases hg : pts.length < vc
  · rw [if_pos hg]
    rcases hp : parseLineA6 (jsTrim buf) with _ | p
    · exact le_refl _
    · simp
  · rw [if_neg hg]

/-- Emission invariant of the streaming PLY header loop: every snapshot's
percentage is the capped 0-50 % byte fraction for some byte count at
least the bytes already loaded, and the percentages are nondecreasing. -/
theorem plyHeaderLoop_ems_spec (cl : Nat) :
    ∀ (chunks : List (List Char)) (buffer : List Char) (vc loaded : Nat),
      (∀ e ∈ (plyHeaderLoop true cl chunks buffer vc loaded).2,
          ∃ lb, loaded ≤ lb ∧
            e.percentage = min (((lb : Rat) / (cl : Rat)) * 50) 50) ∧
      ((plyHeaderLoop true cl chunks buffer vc loaded).2.map
          LoadProgress.percentage).Chain' (· ≤ ·) := by
  intro chunks
  induction chunks with
  | nil =>
    intro buffer vc loaded
    simp [plyHeaderLoop]
  | cons c cs ih =>
    intro buffer vc loaded
    rcases hs : hdrScan vc (splitNl (buffer ++ c)) with ⟨vc', ro⟩
    rcases ro with _ | rest
    · rcases hrec : plyHeaderLoop true cl cs (buffer ++ c) vc' (loaded + c.length)
        with ⟨r, ems⟩
      have hred : plyHeaderLoop true cl (c :: cs) buffer vc loaded
          = (r, plyHdrEm true cl (loaded + c.length) ++ ems) := by
        simp only [plyHeaderLoop, hs, hrec]
      obtain ⟨ihe, ihc⟩ := ih (buffer ++ c) vc' (loaded + c.length)
      rw [hrec] at ihe ihc
      rw [hred]
      constructor
      · intro e he
        simp only [List.mem_append] at he
        rcases he with he | he
        · by_cases hcl : 0 < cl
          · simp only [plyHdrEm, hcl, and_true, if_pos, List.mem_singleton,
              eq_self_iff_true, true_and, if_true] at he
            subst he
            exact ⟨loaded + c.length, Nat.le_add_right _ _, rfl⟩
          · simp [plyHdrEm, hcl] at he
        · obtain ⟨lb, hle, heq⟩ := ihe e he
          exact ⟨lb, by omega, heq⟩
      · rw [List.map_append, List.chain'_append]
        refine ⟨?_, ihc, ?_⟩
        · by_cases hcl : 0 < cl <;> simp [plyHdrEm, hcl]
        · intro x hx y hy
          by_cases hcl : 0 < cl
          · simp only [plyHdrEm, hcl, and_true, if_pos, true_and, if_true,
              List.map_cons, List.map_nil, List.getLast?_singleton,
              Option.mem_def, Option.some.injEq] at hx
            rw [List.head?_map] at hy
            rcases hhd : ems.head? with _ | e0
            · rw [hhd] at hy
              simp at hy
            · rw [hhd] at hy
              simp only [Option.map_some', Option.mem_def, Option.some.injEq] at hy
              obtain ⟨lb, hle, heq⟩ := ihe e0 (List.mem_of_mem_head? (by rw [hhd]; rfl))
              rw [← hx, ← hy, heq]
              exact hdrPerc_mono cl hle
          · simp [plyHdrEm, hcl] at hx
    · have hred : plyHeaderLoop true cl (c :: cs) buffer vc loaded
          = (some (vc', joinNl rest, loaded + c.length, cs),
             plyHdrEm true cl (loaded + c.length)) := by
        simp only [plyHeaderLoop, hs]
      rw [hred]
      constructor
      · intro e he
        by_cases hcl : 0 < cl
        · simp only [plyHdrEm, hcl, and_true, if_pos, List.mem_singleton,
            true_and, if_true] at he
          subst he
          exact ⟨loaded + c.length, Nat.le_add_right _ _, rfl⟩
        · simp [plyHdrEm, hcl] at he
      · by_cases hcl : 0 < cl <;> simp [plyHdrEm, hcl]

/-- Emission invariant of the streaming PLY body loop: starting within the
declared count, the final point list only grows and stays within the
count, every snapshot's percentage is `50 + 50·pi/vc` for some
intermediate record count `pi` between the starting and final counts, and
the emitted percentages are nondecreasing. -/
theorem plyBodyLoop_ems_spec (cl vc : Nat) :
    ∀ (fuel : Nat) (chunks : List (List Char)) (buffer : List Char) (loaded : Nat)
      (pts p : List Point) (b : List Char) (ld : Nat) (ems : List LoadProgress),
      pts.length ≤ vc →
      plyBodyLoop true cl vc fuel chunks buffer loaded pts = some (p, b, ld, ems) →
      pts.length ≤ p.length ∧ p.length ≤ vc ∧
      (∀ e ∈ ems, ∃ pi2, pts.length ≤ pi2 ∧ pi2 ≤ p.length ∧
        e.percentage = 50 + ((pi2 : Rat) / (vc : Rat)) * 50) ∧
      (ems.map LoadProgress.percentage).Chain' (· ≤ ·) := by
  intro fuel
  induction fuel with
  | zero =>
    intro chunks buffer loaded pts p b ld ems hle h
    unfold plyBodyLoop at h
    by_cases hg : vc ≤ pts.length
    · rw [if_pos hg] at h
      simp only [Option.some.injEq, Prod.mk.injEq] at h
      obtain ⟨h1, h2, h3, h4⟩ := h
      subst h1
      subst h4
      refine ⟨le_refl _, hle, ?_, ?_⟩
      · intro e he
        simp at he
      · simp
    · rw [if_neg hg] at h
      simp at h
  | succ fuel' ih =>
    intro chunks buffer loaded pts p b ld ems hle h
    unfold plyBodyLoop at h
    by_cases hg : vc ≤ pts.length
    · rw [if_pos hg] at h
      simp only [Option.some.injEq, Prod.mk.injEq] at h
      obtain ⟨h1, h2, h3, h4⟩ := h
      subst h1
      subst h4
      refine ⟨le_refl _, hle, ?_, ?_⟩
      · intro e he
        simp at he
      · simp
    · rw [if_neg hg] at h
      cases chunks with
      | nil =>
        simp only [] at h
        by_cases hb : buffer = []
        · rw [if_pos hb] at h
          simp only [Option.some.injEq, Prod.mk.injEq] at h
          obtain ⟨h1, h2, h3, h4⟩ := h
          subst h1
          subst h4
          refine ⟨le_refl _, hle, ?_, ?_⟩
          · intro e he
            simp at he
          · simp
        · rw [if_neg hb] at h
          rcases hrec : plyBodyLoop true cl vc fuel' [] (carryBuf buffer) loaded
              (processLines vc (fullLines buffer) pts) with _ | ⟨q, qb, qld, qe⟩
          · rw [hrec] at h
            simp at h
          · rw [hrec] at h
            simp only [Option.some.injEq, Prod.mk.injEq] at h
            obtain ⟨h1, h2, h3, h4⟩ := h
            subst h1
            subst h4
            have hmono := processLines_length_mono vc (fullLines buffer) pts
            have hcap := processLines_length_le vc (fullLines buffer) pts hle
            obtain ⟨ih1, ih2, ih3, ih4⟩ := ih [] (carryBuf buffer) loaded
              (processLines vc (fullLines buffer) pts) q qb qld qe hcap hrec
            refine ⟨le_trans hmono ih1, ih2, ?_, ?_⟩
            · intro e he
              simp only [List.mem_append] at he
              rcases he with he | he
              · by_cases hcl : (processLines vc (fullLines buffer) pts).length
                    % BATCH_SIZE = 0 ∧ 0 < cl
                · simp only [plyBodyEm, hcl.1, hcl.2, and_true, true_and, if_true,
                    List.mem_singleton, if_pos] at he
                  subst he
                  exact ⟨(processLines vc (fullLines buffer) pts).length, hmono, ih1, rfl⟩
                · simp only [plyBodyEm] at he
                  rw [if_neg (by tauto)] at he
                  simp at he
              · obtain ⟨pi2, hp1, hp2, hp3⟩ := ih3 e he
                exact ⟨pi2, le_trans hmono hp1, hp2, hp3⟩
            · rw [List.map_append, List.chain'_append]
              refine ⟨?_, ih4, ?_⟩
              · by_cases hcl : (processLines vc (fullLines buffer) pts).length
                    % BATCH_SIZE = 0 ∧ 0 < cl
                · simp [plyBodyEm, hcl.1, hcl.2]
                · simp only [plyBodyEm]
                  rw [if_neg (by tauto)]
                  simp
              · intro x hx y hy
                by_cases hcl : (processLines vc (fullLines buffer) pts).length
                    % BATCH_SIZE = 0 ∧ 0 < cl
                · simp only [plyBodyEm, hcl.1, hcl.2, and_true, true_and, if_true,
                    List.map_cons, List.map_nil, List.getLast?_singleton,
                    Option.mem_def, Option.some.injEq, if_pos] at hx
                  rw [List.head?_map] at hy
                  rcases hhd : qe.head? with _ | e0
                  · rw [hhd] at hy
                    simp at hy
                  · rw [hhd] at hy
                    simp only [Option.map_some', Option.mem_def, Option.some.injEq] at hy
                    obtain ⟨pi2, hp1, hp2, hp3⟩ := ih3 e0
                      (List.mem_of_mem_head? (by rw [hhd]; rfl))
                    rw [← hx, ← hy, hp3]
                    exact bodyPerc_mono vc hp1
                · simp only [plyBodyEm] at hx
                  rw [if_neg (by tauto)] at hx
                  simp at hx
      | cons c cs =>
        simp only [] at h
        rcases hrec : plyBodyLoop true cl vc fuel' cs (carryBuf (buffer ++ c))
            (loaded + c.length) (processLines vc (fullLines (buffer ++ c)) pts)
          with _ | ⟨q, qb, qld, qe⟩
        · rw [hrec] at h
          simp at h
        · rw [hrec] at h
          simp only [Option.some.injEq, Prod.mk.injEq] at h
          obtain ⟨h1, h2, h3, h4⟩ := h
          subst h1
          subst h4
          have hmono := processLines_length_mono vc (fullLines (buffer ++ c)) pts
          have hcap := processLines_length_le vc (fullLines (buffer ++ c)) pts hle
          obtain ⟨ih1, ih2, ih3, ih4⟩ := ih cs (carryBuf (buffer ++ c)) (loaded + c.length)
            (processLines vc (fullLines (buffer ++ c)) pts) q qb qld qe hcap hrec
          refine ⟨le_trans hmono ih1, ih2, ?_, ?_⟩
          · intro e he
            simp only [List.mem_append] at he
            rcases he with he | he
            · by_cases hcl : (processLines vc (fullLines (buffer ++ c)) pts).length
                  % BATCH_SIZE = 0 ∧ 0 < cl
              · simp only [plyBodyEm, hcl.1, hcl.2, and_true, true_and, if_true,
                  List.mem_singleton, if_pos] at he
                subst he
                exact ⟨(processLines vc (fullLines (buffer ++ c)) pts).length,
                  hmono, ih1, rfl⟩
              · simp only [plyBodyEm] at he
                rw [if_neg (by tauto)] at he
                simp at he
            · obtain ⟨pi2, hp1, hp2, hp3⟩ := ih3 e he
              exact ⟨pi2, le_trans hmono hp1, hp2, hp3⟩
          · rw [List.map_append, List.chain'_append]
            refine ⟨?_, ih4, ?_⟩
            · by_cases hcl : (processLines vc (fullLines (buffer ++ c)) pts).length
                  % BATCH_SIZE = 0 ∧ 0 < cl
              · simp [plyBodyEm, hcl.1, hcl.2]
              · simp only [plyBodyEm]
                rw [if_neg (by tauto)]
                simp
            · intro x hx y hy
              by_cases hcl : (processLines vc (fullLines (buffer ++ c)) pts).length
                  % BATCH_SIZE = 0 ∧ 0 < cl
              · simp only [plyBodyEm, hcl.1, hcl.2, and_true, true_and, if_true,
                  List.map_cons, List.map_nil, List.getLast?_singleton,
                  Option.mem_def, Option.some.injEq, if_pos] at hx
                rw [List.head?_map] at hy
                rcases hhd : qe.head? with _ | e0
                · rw [hhd] at hy
                  simp at hy
                · rw [hhd] at hy
                  simp only [Option.map_some', Option.mem_def, Option.some.injEq] at hy
                  obtain ⟨pi2, hp1, hp2, hp3⟩ := ih3 e0
                    (List.mem_of_mem_head? (by rw [hhd]; rfl))
                  rw [← hx, ← hy, hp3]
                  exact bodyPerc_mono vc hp1
              · simp only [plyBodyEm] at hx
                rw [if_neg (by tauto)] at hx
                simp at hx

/-- C4 is refuted on both loaders: a completed streaming PLY load that
decoded fewer records than declared delivers NO final 100 % emission
(here: no emission at all, though a callback was supplied and the byte
total was unknown), and the streaming TXT loader emits a percentage above
100 (1100 %) before its final snapshot when the content-length header
undercounts the stream, breaking monotonicity and the [0,100] range. -/
theorem C4_counterexample :
    loadPLYFile true 0 5 ["element vertex 2\nend_header\n1 2 3 255 0 0\n".toList]
      = some (.ok [⟨1, 2, 3, some 255, some 0, some 0⟩], [])
    ∧ loadTXTFile true 1 5 ["##########\n".toList]
      = some (.ok [], [⟨11, 1, 1100⟩, ⟨11, 1, 100⟩]) := by
  constructor
  · have hdr : plyHeaderLoop true 0 ["element vertex 2\nend_header\n1 2 3 255 0 0\n".toList]
        [] 0 0 = (some (2, "1 2 3 255 0 0\n".toList, 42, []), []) := by decide
    unfold loadPLYFile
    rw [hdr]
    simp +decide [plyBodyLoop.eq_def, carryBuf, fullLines, splitNl, processLines,
      parseLineA6, indexOfFrom, idxOf, substr, parseFloatJS, parseFloatBody, parseIntJS,
      digitsToNat, parseExpVal, jsIsSpace, jsTrim, plyBodyEm, plyTail, BATCH_SIZE, finEm]
  · unfold loadTXTFile
    simp +decide [txtBodyLoop.eq_def, carryBuf, fullLines, splitNl, processLinesB,
      parseLineB, indexOfFrom, idxOf, substr, parseFloatJS, parseFloatBody, parseIntJS,
      digitsToNat, parseExpVal, jsIsSpace, jsTrim, txtEm, txtTailParse, BATCH_SIZE, finEm]
    norm_num

/-- Two nondecreasing percentage runs separated by a threshold chain into
one nondecreasing run. -/
theorem chain_le_append_of_bounds {l1 l2 : List Rat} {m : Rat}
    (h1 : l1.Chain' (· ≤ ·)) (h2 : l2.Chain' (· ≤ ·))
    (hb1 : ∀ x ∈ l1, x ≤ m) (hb2 : ∀ y ∈ l2, m ≤ y) :
    (l1 ++ l2).Chain' (· ≤ ·) := by
  rw [List.chain'_append]
  refine ⟨h1, h2, ?_⟩
  intro x hx y hy
  exact le_trans (hb1 x (mem_of_getLast?_eq hx)) (hb2 y (List.mem_of_mem_head? hy))

/-- C4 (amended): for the streaming PLY loader, emitted percentages are
nondecreasing and lie in [0,100]; but the final 100 % snapshot is NOT
unconditional: when a load completes having decoded fewer records than
declared, the loader returns the sliced array with only the header and
body snapshots, all strictly below 100. For the streaming TXT loader the
final snapshot is unconditionally 100 whenever a callback is supplied. -/
theorem C4_progress_amended :
    (∀ (cl fuel : Nat) (chunks : List (List Char))
        (res : Except LoadErr (List Point)) (ems : List LoadProgress),
        loadPLYFile true cl fuel chunks = some (res, ems) →
        (∀ e ∈ ems, 0 ≤ e.percentage ∧ e.percentage ≤ 100) ∧
        (ems.map LoadProgress.percentage).Chain' (· ≤ ·))
    ∧ (∀ (cl fuel : Nat) (chunks : List (List Char)) (vc : Nat) (buf : List Char)
        (loaded : Nat) (rest : List (List Char)) (hems : List LoadProgress)
        (fpts : List Point) (fbuf : List Char) (floaded : Nat)
        (bems : List LoadProgress),
        plyHeaderLoop true cl chunks [] 0 0 = (some (vc, buf, loaded, rest), hems) →
        plyBodyLoop true cl vc fuel rest buf loaded [] = some (fpts, fbuf, floaded, bems) →
        (plyTail vc fbuf fpts).length < vc →
        loadPLYFile true cl fuel chunks
            = some (.ok (plyTail vc fbuf fpts), hems ++ bems)
          ∧ ∀ e ∈ hems ++ bems, e.percentage < 100)
    ∧ (∀ (cl fuel : Nat) (chunks : List (List Char))
        (res : Except LoadErr (List Point)) (ems : List LoadProgress),
        loadTXTFile true cl fuel chunks = some (res, ems) →
        ∃ lb t, ems.getLast? = some ⟨lb, t, 100⟩) := by
  refine ⟨?_, ?_, ?_⟩
  · intro cl fuel chunks res ems h
    rcases hh : plyHeaderLoop true cl chunks [] 0 0 with ⟨ro, hems⟩
    obtain ⟨hspec, hchain⟩ := plyHeaderLoop_ems_spec cl chunks [] 0 0
    rw [hh] at hspec hchain
    have hher : ∀ e ∈ hems, 0 ≤ e.percentage ∧ e.percentage ≤ 50 := by
      intro e he
      obtain ⟨lb, _, heq⟩ := hspec e he
      rw [heq]
      exact ⟨hdrPerc_nonneg cl lb, hdrPerc_le_50 cl lb⟩
    have hbh : ∀ x ∈ hems.map LoadProgress.percentage, x ≤ (50 : Rat) := by
      intro x hx
      obtain ⟨e, he, rfl⟩ := List.mem_map.mp hx
      exact (hher e he).2
    rcases ro with _ | ⟨vc, buf, loaded, rest⟩
    · simp only [loadPLYFile, hh, Option.some.injEq, Prod.mk.injEq] at h
      obtain ⟨h1, h2⟩ := h
      subst h2
      refine ⟨?_, hchain⟩
      intro e he
      obtain ⟨he1, he2⟩ := hher e he
      exact ⟨he1, le_trans he2 (by norm_num)⟩
    · rcases hb : plyBodyLoop true cl vc fuel rest buf loaded []
        with _ | ⟨fpts, fbuf, floaded, bems⟩
      · simp [loadPLYFile, hh, hb] at h
      · obtain ⟨bh1, bh2, bspec, bchain⟩ := plyBodyLoop_ems_spec cl vc fuel rest buf
          loaded [] fpts fbuf floaded bems (by simp) hb
        have hber : ∀ e ∈ bems, 50 ≤ e.percentage ∧ e.percentage ≤ 100 := by
          intro e he
          obtain ⟨pi2, _, hp2, hp3⟩ := bspec e he
          rw [hp3]
          exact ⟨bodyPerc_ge_50 vc pi2, bodyPerc_le_100 vc pi2 (le_trans hp2 bh2)⟩
        have hbb : ∀ y ∈ bems.map LoadProgress.percentage, (50 : Rat) ≤ y := by
          intro y hy
          obtain ⟨e, he, rfl⟩ := List.mem_map.mp hy
          exact (hber e he).1
        have hc12 : ((hems ++ bems).map LoadProgress.percentage).Chain' (· ≤ ·) := by
          rw [List.map_append]
          exact chain_le_append_of_bounds hchain bchain hbh hbb
        have h12 : ∀ e ∈ hems ++ bems, 0 ≤ e.percentage ∧ e.percentage ≤ 100 := by
          intro e he
          rcases List.mem_append.mp he with he | he
          · obtain ⟨he1, he2⟩ := hher e he
            exact ⟨he1, le_trans he2 (by norm_num)⟩
          · obtain ⟨he1, he2⟩ := hber e he
            exact ⟨le_trans (by norm_num) he1, he2⟩
        simp only [loadPLYFile, hh, hb] at h
        by_cases hlt : (plyTail vc fbuf fpts).length < vc
        · rw [if_pos hlt] at h
          simp only [Option.some.injEq, Prod.mk.injEq] at h
          obtain ⟨h1, h2⟩ := h
          subst h2
          exact ⟨h12, hc12⟩
        · rw [if_neg hlt] at h
          simp only [Option.some.injEq, Prod.mk.injEq] at h
          obtain ⟨h1, h2⟩ := h
          subst h2
          have hfin : finEm true cl floaded
              = [⟨floaded, if cl = 0 then floaded else cl, 100⟩] := by
            simp [finEm]
          refine ⟨?_, ?_⟩
          · intro e he
            rcases List.mem_append.mp he with he | he
            · exact h12 e he
            · rw [hfin] at he
              simp only [List.mem_singleton] at he
              subst he
              norm_num
          · rw [List.map_append]
            apply chain_le_append_of_bounds hc12
            · rw [hfin]
              simp
            · intro x hx
              obtain ⟨e, he, rfl⟩ := List.mem_map.mp hx
              exact (h12 e he).2
            · intro y hy
              rw [hfin] at hy
              simp only [List.map_cons, List.map_nil, List.mem_singleton] at hy
              subst hy
              norm_num
  · intro cl fuel chunks vc buf loaded rest hems fpts fbuf floaded bems hh hb hlt
    obtain ⟨hspec, hchain⟩ := plyHeaderLoop_ems_spec cl chunks [] 0 0
    rw [hh] at hspec hchain
    obtain ⟨bh1, bh2, bspec, bchain⟩ := plyBodyLoop_ems_spec cl vc fuel rest buf
      loaded [] fpts fbuf floaded bems (by simp) hb
    refine ⟨?_, ?_⟩
    · simp only [loadPLYFile, hh, hb]
      rw [if_pos hlt]
    · intro e he
      rcases List.mem_append.mp he with he | he
      · obtain ⟨lb, _, heq⟩ := hspec e he
        rw [heq]
        exact lt_of_le_of_lt (hdrPerc_le_50 cl lb) (by norm_num)
      · obtain ⟨pi2, _, hp2, hp3⟩ := bspec e he
        rw [hp3]
        apply bodyPerc_lt_100
        have htl := plyTail_length_ge vc fbuf fpts
        omega
  · intro cl fuel chunks res ems h
    rcases ht : txtBodyLoop true cl fuel chunks [] 0 []
      with _ | ⟨pts, tbuf, tloaded, tems⟩
    · simp [loadTXTFile, ht] at h
    · simp only [loadTXTFile, ht, Option.some.injEq, Prod.mk.injEq] at h
      obtain ⟨h1, h2⟩ := h
      subst h2
      refine ⟨tloaded, if cl = 0 then tloaded else cl, ?_⟩
      simp [finEm, List.getLast?_append]

/-- The C4 scenarios at concrete runs: a fully decoded 1-point PLY load
with known byte total emits the nondecreasing in-range snapshots 50 then
100; a 2-declared/1-decoded PLY load completes with only the 50 % header
snapshot, all emissions strictly below 100; and a TXT load ends with a
final 100 % snapshot. -/
theorem C4_witness :
    ((∀ e ∈ ([⟨42, 42, 50⟩, ⟨42, 42, 100⟩] : List LoadProgress),
        0 ≤ e.percentage ∧ e.percentage ≤ 100) ∧
      (([⟨42, 42, 50⟩, ⟨42, 42, 100⟩] : List LoadProgress).map
          LoadProgress.percentage).Chain' (· ≤ ·))
    ∧ (loadPLYFile true 42 5 ["element vertex 2\nend_header\n1 2 3 255 0 0\n".toList]
          = some (.ok (plyTail 2 [] [⟨1, 2, 3, some 255, some 0, some 0⟩]),
              [⟨42, 42, 50⟩] ++ ([] : List LoadProgress))
        ∧ ∀ e ∈ ([⟨42, 42, 50⟩] : List LoadProgress) ++ ([] : List LoadProgress),
            e.percentage < 100)
    ∧ (∃ lb t, ([⟨14, 1, 100⟩] : List LoadProgress).getLast? = some ⟨lb, t, 100⟩) := by
  refine ⟨?_, ?_, ?_⟩
  · exact C4_progress_amended.1 42 5
      ["element vertex 1\nend_header\n1 2 3 255 0 0\n".toList]
      (.ok [⟨1, 2, 3, some 255, some 0, some 0⟩]) [⟨42, 42, 50⟩, ⟨42, 42, 100⟩]
      (by
        have hdr : plyHeaderLoop true 42
            ["element vertex 1\nend_header\n1 2 3 255 0 0\n".toList] [] 0 0
            = (some (1, "1 2 3 255 0 0\n".toList, 42, []), [⟨42, 42, 50⟩]) := by
          have hs : hdrScan 0 (splitNl (([] : List Char)
              ++ "element vertex 1\nend_header\n1 2 3 255 0 0\n".toList))
              = (1, some ["1 2 3 255 0 0".toList, []]) := by decide
          simp only [plyHeaderLoop, hs]
          simp +decide [plyHdrEm, joinNl]
        unfold loadPLYFile
        rw [hdr]
        simp +decide [plyBodyLoop.eq_def, carryBuf, fullLines, splitNl, processLines,
          parseLineA6, indexOfFrom, idxOf, substr, parseFloatJS, parseFloatBody,
          parseIntJS, digitsToNat, parseExpVal, jsIsSpace, jsTrim, plyBodyEm, plyTail,
          BATCH_SIZE, finEm])
  · exact C4_progress_amended.2.1 42 5
      ["element vertex 2\nend_header\n1 2 3 255 0 0\n".toList]
      2 "1 2 3 255 0 0\n".toList 42 [] [⟨42, 42, 50⟩]
      [⟨1, 2, 3, some 255, some 0, some 0⟩] [] 42 []
      (by
        have hs : hdrScan 0 (splitNl (([] : List Char)
            ++ "element vertex 2\nend_header\n1 2 3 255 0 0\n".toList))
            = (2, some ["1 2 3 255 0 0".toList, []]) := by decide
        simp only [plyHeaderLoop, hs]
        simp +decide [plyHdrEm, joinNl])
      (by
        simp +decide [plyBodyLoop.eq_def, carryBuf, fullLines, splitNl, processLines,
          parseLineA6, indexOfFrom, idxOf, substr, parseFloatJS, parseFloatBody,
          parseIntJS, digitsToNat, parseExpVal, jsIsSpace, jsTrim, plyBodyEm, BATCH_SIZE])
      (by decide)
  · exact C4_progress_amended.2.2 1 3 ["1 2 3 255 0 0\n".toList]
      (.ok [⟨1, 2, 3, some 255, some 0, some 0⟩]) [⟨14, 1, 100⟩]
      (by
        unfold loadTXTFile
        simp +decide [txtBodyLoop.eq_def, carryBuf, fullLines, splitNl, processLinesB,
          parseLineB, indexOfFrom, idxOf, substr, parseFloatJS, parseFloatBody,
          parseIntJS, digitsToNat, parseExpVal, jsIsSpace, jsTrim, txtEm, txtTailParse,
          BATCH_SIZE, finEm])

end PLY
